import Mathlib

/-!
# Verification of the kalandra git mirroring engine

A shallow embedding of the packet-line codec (`kalandra/gitprotocol.py`),
the connection core and fetch/push state machines
(`kalandra/transports/base.py`, `kalandra/transports/http.py`) and the
mirror-update calculation (`kalandra/commands/update_mirror.py`), together
with theorems checking the natural-language specification against it.

Bytes are modelled as `List Nat` (each entry one byte), strings as `String`.
Asynchronous iterators are modelled as lists; the logging side channel is
modelled by explicit event lists; exceptions by `Except`.
-/

namespace Kalandra

/-! ## Hex encoding / decoding (Python `b"%04x" % n` and `int(data, 16)`) -/

/-- One lowercase hex digit, as the byte Python's `%x` formatting emits. -/
def hexDigitByte (d : Nat) : Nat :=
  if d < 10 then 48 + d else 87 + d

/-- The hex digits of `n` (empty for `n = 0`), as `%x` produces them. -/
def toHexCore (n : Nat) : List Nat :=
  if n = 0 then [] else toHexCore (n / 16) ++ [hexDigitByte (n % 16)]
  termination_by n
  decreasing_by exact Nat.div_lt_self (Nat.pos_of_ne_zero (by assumption)) (by norm_num)

/-- Python `b"%x" % n`. -/
def toHex (n : Nat) : List Nat :=
  if n = 0 then [48] else toHexCore n

/-- Python `b"%04x" % n`: the hex digits of `n`, left-padded with `'0'` to at
least four bytes.  For `n ≥ 0x10000` the result is longer than four bytes. -/
def format04x (n : Nat) : List Nat :=
  List.replicate (4 - (toHex n).length) 48 ++ toHex n

/-- The value of one ASCII hex digit byte (`0-9`, `a-f`, `A-F`), as accepted
by Python's `int(data, 16)`. -/
def hexVal (c : Nat) : Option Nat :=
  if 48 ≤ c ∧ c ≤ 57 then some (c - 48)
  else if 97 ≤ c ∧ c ≤ 102 then some (c - 87)
  else if 65 ≤ c ∧ c ≤ 70 then some (c - 55)
  else none

/-- Python `int(data, 16)` on a byte string of hex digits (whitespace and
sign forms are not modelled; the engine only ever parses bare digits). -/
def parseHexDigits (l : List Nat) : Option Nat :=
  if l.isEmpty then none
  else l.foldl (fun acc c => acc.bind fun a => (hexVal c).map fun v => 16 * a + v) (some 0)

theorem hexVal_hexDigitByte {d : Nat} (h : d < 16) : hexVal (hexDigitByte d) = some d := by
  unfold hexVal hexDigitByte
  split_ifs with h1 h2 h3 h4 h5 h6 h7 <;> (congr 1; omega)

theorem toHexCore_small {n : Nat} (h0 : 0 < n) (h : n < 16) :
    toHexCore n = [hexDigitByte n] := by
  rw [toHexCore]
  have h1 : ¬ n = 0 := by omega
  have h2 : n / 16 = 0 := by omega
  have h3 : n % 16 = n := by omega
  simp [h1, h2, h3, toHexCore]

theorem toHexCore_step {n : Nat} (h : 16 ≤ n) :
    toHexCore n = toHexCore (n / 16) ++ [hexDigitByte (n % 16)] := by
  rw [toHexCore]
  have h1 : ¬ n = 0 := by omega
  simp [h1]

theorem format04x_eq {n : Nat} (h : n < 65536) :
    format04x n = [hexDigitByte (n / 4096), hexDigitByte (n / 256 % 16),
      hexDigitByte (n / 16 % 16), hexDigitByte (n % 16)] := by
  have core2 : ∀ m : Nat, 16 ≤ m → m < 256 →
      toHexCore m = [hexDigitByte (m / 16), hexDigitByte (m % 16)] := by
    intro m h1 h2
    rw [toHexCore_step h1, toHexCore_small (by omega) (by omega)]
    rfl
  have core3 : ∀ m : Nat, 256 ≤ m → m < 4096 →
      toHexCore m = [hexDigitByte (m / 256), hexDigitByte (m / 16 % 16),
        hexDigitByte (m % 16)] := by
    intro m h1 h2
    rw [toHexCore_step (by omega), core2 (m / 16) (by omega) (by omega)]
    have e1 : m / 16 / 16 = m / 256 := by omega
    rw [e1]
    rfl
  rcases Nat.eq_zero_or_pos n with h0 | h0
  · subst h0; rfl
  by_cases h16 : n < 16
  · have e : toHex n = [hexDigitByte n] := by
      unfold toHex
      have : ¬ n = 0 := by omega
      simp [this, toHexCore_small h0 h16]
    unfold format04x
    rw [e]
    have e1 : n / 4096 = 0 := by omega
    have e2 : n / 256 % 16 = 0 := by omega
    have e3 : n / 16 % 16 = 0 := by omega
    have e4 : n % 16 = n := by omega
    rw [e1, e2, e3, e4]
    rfl
  by_cases h256 : n < 256
  · have e : toHex n = [hexDigitByte (n / 16), hexDigitByte (n % 16)] := by
      unfold toHex
      have : ¬ n = 0 := by omega
      simp [this, core2 n (by omega) h256]
    unfold format04x
    rw [e]
    have e1 : n / 4096 = 0 := by omega
    have e2 : n / 256 % 16 = 0 := by omega
    have e3 : n / 16 % 16 = n / 16 := by omega
    rw [e1, e2, e3]
    rfl
  by_cases h4096 : n < 4096
  · have e : toHex n = [hexDigitByte (n / 256), hexDigitByte (n / 16 % 16),
        hexDigitByte (n % 16)] := by
      unfold toHex
      have : ¬ n = 0 := by omega
      simp [this, core3 n (by omega) h4096]
    unfold format04x
    rw [e]
    have e1 : n / 4096 = 0 := by omega
    have e2 : n / 256 % 16 = n / 256 := by omega
    rw [e1, e2]
    rfl
  · have e : toHex n = [hexDigitByte (n / 4096), hexDigitByte (n / 256 % 16),
        hexDigitByte (n / 16 % 16), hexDigitByte (n % 16)] := by
      unfold toHex
      have hne : ¬ n = 0 := by omega
      rw [if_neg hne, toHexCore_step (by omega), core3 (n / 16) (by omega) (by omega)]
      have e1 : n / 16 / 256 = n / 4096 := by omega
      have e2 : n / 16 / 16 % 16 = n / 256 % 16 := by omega
      rw [e1, e2]
      rfl
    unfold format04x
    rw [e]
    rfl

theorem parseHexDigits_four {a b c d : Nat} (ha : a < 16) (hb : b < 16)
    (hc : c < 16) (hd : d < 16) :
    parseHexDigits [hexDigitByte a, hexDigitByte b, hexDigitByte c, hexDigitByte d] =
      some (16 * (16 * (16 * a + b) + c) + d) := by
  simp [parseHexDigits, List.foldl, hexVal_hexDigitByte, ha, hb, hc, hd,
    hexVal_hexDigitByte ha, hexVal_hexDigitByte hb, hexVal_hexDigitByte hc,
    hexVal_hexDigitByte hd, Option.bind]

theorem parse_format04x {n : Nat} (h : n < 65536) :
    parseHexDigits (format04x n) = some n ∧ (format04x n).length = 4 := by
  rw [format04x_eq h]
  refine ⟨?_, rfl⟩
  rw [parseHexDigits_four (by omega) (by omega) (by omega) (by omega)]
  congr 1
  omega

/-! ## Packet lines (`kalandra/gitprotocol.py`) -/

/-- `PacketLineType` (the Python enum; `DATA` has value `-1` and is never
formatted through `marker_bytes`). -/
inductive PacketLineType where
  | DATA
  | FLUSH
  | DELIMITER
  | RESPONSE_END
  | UNKNOWN
  deriving DecidableEq, Repr

/-- The enum value of a non-`DATA` marker (`FLUSH = 0`, `DELIMITER = 1`,
`RESPONSE_END = 2`, `UNKNOWN = 3`); the `DATA` case is never used by
`marker_bytes` (its Python enum value is `-1`). -/
def PacketLineType.value : PacketLineType → Nat
  | .DATA => 0
  | .FLUSH => 0
  | .DELIMITER => 1
  | .RESPONSE_END => 2
  | .UNKNOWN => 3

/-- `PacketLineType(pkt_marker)` for `pkt_marker < 4` (markers `0`–`3`);
values `≥ 4` never reach this constructor in the source. -/
def PacketLineType.ofMarker : Nat → PacketLineType
  | 0 => .FLUSH
  | 1 => .DELIMITER
  | 2 => .RESPONSE_END
  | _ => .UNKNOWN

/-- `PacketLineType.from_bytes`: a 4-byte hex header gives `(DATA, v - 4)` for
`v ≥ 4` and `(marker, 0)` otherwise; a wrong size or non-hex content raises. -/
def PacketLineType.fromBytes (data : List Nat) : Except String (PacketLineType × Nat) :=
  if data.length ≠ 4 then .error "Invalid packet line marker size"
  else
    match parseHexDigits data with
    | none => .error "invalid hex literal"
    | some v => if v ≥ 4 then .ok (.DATA, v - 4) else .ok (.ofMarker v, 0)

/-- `PacketLine`: `length`, `data` (payload bytes) and `type`. -/
structure PacketLine where
  length : Nat
  data : List Nat
  type : PacketLineType
  deriving DecidableEq, Repr

/-- `PacketLine.marker_bytes`: `b"%04x" % (length + 4)` for `DATA`, else
`b"%04x" % type.value`. -/
def PacketLine.marker_bytes (p : PacketLine) : List Nat :=
  format04x (if p.type = .DATA then p.length + 4 else p.type.value)

/-- `PacketLine.from_marker_and_payload`. -/
def PacketLine.from_marker_and_payload (t : PacketLineType) (payload : Option (List Nat)) :
    Except String PacketLine :=
  if t ≠ .DATA then .ok ⟨0, [], t⟩
  else
    match payload with
    | none => .error "Payload is required for DATA packet type"
    | some p => .ok ⟨p.length, p, .DATA⟩

/-- `PacketLine.sniff_buffer`: `(type?, missing-or-payload-length, payload?)`.
The middle component is negative when bytes are missing (as in the source),
`0` for markers and the payload length for complete `DATA` packets.
`int(data, 16)` raising on non-hex bytes is the `.error` case. -/
def PacketLine.sniff_buffer (data : List Nat) :
    Except String (Option PacketLineType × Int × Option (List Nat)) :=
  if data.length < 4 then .ok (none, (4 : Int) - data.length, none)
  else
    match parseHexDigits (data.take 4) with
    | none => .error "invalid hex literal"
    | some m =>
      if m ≥ 4 then
        if m > data.length then .ok (some .DATA, (data.length : Int) - m, none)
        else .ok (some .DATA, (m : Int) - 4, some ((data.drop 4).take (m - 4)))
      else .ok (some (PacketLineType.ofMarker m), 0, none)

/-- `PacketLine.from_buffer`. -/
def PacketLine.from_buffer (data : List Nat) : Except String PacketLine :=
  match PacketLine.sniff_buffer data with
  | .error e => .error e
  | .ok (none, _, _) => .error "Not enough data to determine packet type"
  | .ok (some t, len, payload) =>
    if len < 0 then .error "Not enough data to read the whole packet"
    else PacketLine.from_marker_and_payload t payload

/-- `parse_one` (§4.1 of the spec): `from_buffer` together with the number of
bytes consumed, which is `4 + payload length` for `DATA` and `4` for markers. -/
def parse_one (data : List Nat) : Except String (PacketLine × Nat) :=
  match PacketLine.from_buffer data with
  | .error e => .error e
  | .ok p => .ok (p, if p.type = .DATA then p.length + 4 else 4)

/-- `encode_data` (§4.1): header followed by payload, via `marker_bytes`. -/
def encode_data (payload : List Nat) : List Nat :=
  PacketLine.marker_bytes ⟨payload.length, payload, .DATA⟩ ++ payload

/-- `encode_marker` (§4.1): the 4-byte encoding of a marker packet. -/
def encode_marker (t : PacketLineType) : List Nat :=
  PacketLine.marker_bytes ⟨0, [], t⟩

theorem sniff_encode_data (B : List Nat) (h : B.length + 4 < 65536) :
    PacketLine.sniff_buffer (encode_data B) = .ok (some .DATA, (B.length : Int), some B) := by
  have hparse := (parse_format04x h).1
  have h4 := (parse_format04x h).2
  have he : encode_data B = format04x (B.length + 4) ++ B := by
    simp [encode_data, PacketLine.marker_bytes]
  have hlen : (encode_data B).length = 4 + B.length := by
    rw [he, List.length_append, h4]
  have ht : (encode_data B).take 4 = format04x (B.length + 4) := by
    rw [he, List.take_left' h4]
  have hd : (encode_data B).drop 4 = B := by
    rw [he, List.drop_left' h4]
  unfold PacketLine.sniff_buffer
  rw [ht, hd, hlen, hparse]
  have h1 : ¬ (4 + B.length < 4) := by omega
  have h2 : B.length + 4 ≥ 4 := by omega
  have h3 : ¬ (B.length + 4 > 4 + B.length) := by omega
  have h5 : B.length + 4 - 4 = B.length := by omega
  simp [h1, h2, h3, h5, List.take_length]

theorem parse_encode_marker (t : PacketLineType) (ht : t ≠ .DATA) :
    parse_one (encode_marker t) = .ok (⟨0, [], t⟩, 4) := by
  cases t <;> first
    | exact absurd rfl ht
    | simp [parse_one, PacketLine.from_buffer, PacketLine.sniff_buffer, encode_marker,
        PacketLine.marker_bytes, format04x, toHex, toHexCore, parseHexDigits, hexVal,
        PacketLineType.value, PacketLineType.ofMarker, PacketLine.from_marker_and_payload,
        List.foldl, hexDigitByte]

/-- C2: for every byte sequence `B` whose 4-hex-digit header exists
(`len(B) + 4 < 0x10000`), parsing the encoding of a `DATA` packet with payload
`B` yields a `DATA` packet with payload exactly `B`, consuming `len(B) + 4`
bytes; and parsing the 4-byte encoding of each of the markers `FLUSH`,
`DELIMITER` and `RESPONSE_END` yields that marker, consuming 4 bytes. -/
theorem c2_packet_codec_roundtrip (B : List Nat) (h : B.length + 4 < 65536) :
    parse_one (encode_data B) = .ok (⟨B.length, B, .DATA⟩, B.length + 4)
    ∧ parse_one (encode_marker .FLUSH) = .ok (⟨0, [], .FLUSH⟩, 4)
    ∧ parse_one (encode_marker .DELIMITER) = .ok (⟨0, [], .DELIMITER⟩, 4)
    ∧ parse_one (encode_marker .RESPONSE_END) = .ok (⟨0, [], .RESPONSE_END⟩, 4) := by
  refine ⟨?_, parse_encode_marker _ (by simp), parse_encode_marker _ (by simp),
    parse_encode_marker _ (by simp)⟩
  unfold parse_one PacketLine.from_buffer
  rw [sniff_encode_data B h]
  have h0 : ¬ ((B.length : Int) < 0) := by omega
  simp [PacketLine.from_marker_and_payload, h0]

/-- Witness for C2 at `B = [0x61]`. -/
theorem c2_packet_codec_roundtrip_witness :
    parse_one (encode_data [97]) = .ok (⟨1, [97], .DATA⟩, 5) :=
  (c2_packet_codec_roundtrip [97] (by norm_num)).1

/-- C8 counterexample: the claim says encoding fails whenever the payload is
longer than 65515 bytes, but `marker_bytes` performs no length check at all:
a 65516-byte payload is encoded without error, with header `b"fff0"`. -/
theorem c8_counterexample_no_length_check :
    encode_data (List.replicate 65516 0) = [102, 102, 102, 48] ++ List.replicate 65516 0 := by
  have he : ∀ B : List Nat, encode_data B = format04x (B.length + 4) ++ B := by
    intro B
    simp [encode_data, PacketLine.marker_bytes]
  rw [he, List.length_replicate]
  have : format04x (65516 + 4) = [102, 102, 102, 48] := by
    rw [format04x_eq (by norm_num)]
    norm_num [hexDigitByte]
  rw [this]

/-- C8 amended: encoding a `DATA` packet prepends the `%04x` header equal to
`len(payload) + 4`, which is exactly four hex digits parsing back to
`len(payload) + 4` whenever `len(payload) ≤ 65531`; the operation never fails
(payload lengths above 65515 are not rejected, and above 65531 the header
silently grows beyond four digits, as the 5-digit header for 65536 shows). -/
theorem c8_encode_header_amended (B : List Nat) (h : B.length ≤ 65531) :
    encode_data B = format04x (B.length + 4) ++ B
    ∧ (format04x (B.length + 4)).length = 4
    ∧ parseHexDigits (format04x (B.length + 4)) = some (B.length + 4)
    ∧ (format04x 65536).length = 5 := by
  refine ⟨by simp [encode_data, PacketLine.marker_bytes],
    (parse_format04x (by omega)).2, (parse_format04x (by omega)).1, ?_⟩
  have t1 : toHexCore 1 = [49] := by
    rw [toHexCore_small (by norm_num) (by norm_num)]
    norm_num [hexDigitByte]
  have t16 : toHexCore 16 = [49, 48] := by
    rw [toHexCore_step (by norm_num)]
    norm_num [hexDigitByte, t1]
  have t256 : toHexCore 256 = [49, 48, 48] := by
    rw [toHexCore_step (by norm_num)]
    norm_num [hexDigitByte, t16]
  have t4096 : toHexCore 4096 = [49, 48, 48, 48] := by
    rw [toHexCore_step (by norm_num)]
    norm_num [hexDigitByte, t256]
  have t65536 : toHexCore 65536 = [49, 48, 48, 48, 48] := by
    rw [toHexCore_step (by norm_num)]
    norm_num [hexDigitByte, t4096]
  have : format04x 65536 = [49, 48, 48, 48, 48] := by
    rw [format04x, toHex]
    norm_num [t65536]
  rw [this]
  rfl

/-- Witness for C8 (amended) at `B = [0x61]`. -/
theorem c8_encode_header_amended_witness :
    encode_data [97] = format04x 5 ++ [97] ∧ (format04x 5).length = 4 :=
  ⟨(c8_encode_header_amended [97] (by norm_num)).1,
   (c8_encode_header_amended [97] (by norm_num)).2.1⟩

/-! ## Refs, ref changes and the mirror-update calculation
(`kalandra/gitprotocol.py`, `kalandra/commands/update_mirror.py`) -/

/-- `NULL_OBJECT_ID = "0" * 40`. -/
def NULL_OBJECT_ID : String := "0000000000000000000000000000000000000000"

/-- `Ref`: a named reference and its object id. -/
structure Ref where
  name : String
  object_id : String
  deriving DecidableEq, Repr

/-- `RefChange`: a reference mutation. -/
structure RefChange where
  ref : String
  old : String
  new : String
  deriving DecidableEq, Repr

/-- `RefChange.is_delete`. -/
def RefChange.is_delete (c : RefChange) : Bool := c.new == NULL_OBJECT_ID

/-- `RefChange.is_create`. -/
def RefChange.is_create (c : RefChange) : Bool := c.old == NULL_OBJECT_ID

/-- `RefChange.is_update`. -/
def RefChange.is_update (c : RefChange) : Bool :=
  c.old != NULL_OBJECT_ID && c.new != NULL_OBJECT_ID

/-- A Python `dict[str, str]` as an insertion-ordered association list. -/
abbrev RefMap := List (String × String)

/-- Dictionary lookup (first matching key). -/
def lookupRef : RefMap → String → Option String
  | [], _ => none
  | p :: rest, n => if p.1 = n then some p.2 else lookupRef rest n

/-- Dictionary key removal (`dict.pop(n, ...)`'s effect on the mapping). -/
def eraseRef : RefMap → String → RefMap
  | [], _ => []
  | p :: rest, n => if p.1 = n then eraseRef rest n else p :: eraseRef rest n

/-- The `async for` loop of `calculate_mirror_updates`: walks the upstream
refs, popping each name from `refs_to_update`, yielding a change when the
mirror value differs, and returning the leftover map. -/
def mirrorLoop (inc exc : String → Bool) : List Ref → RefMap → List RefChange × RefMap
  | [], refs => ([], refs)
  | r :: rest, refs =>
    if !(inc r.name) || exc r.name then
      mirrorLoop inc exc rest (eraseRef refs r.name)
    else
      let old_id := (lookupRef refs r.name).getD NULL_OBJECT_ID
      let res := mirrorLoop inc exc rest (eraseRef refs r.name)
      if old_id ≠ r.object_id then (⟨r.name, old_id, r.object_id⟩ :: res.1, res.2)
      else res

/-- `calculate_mirror_updates` (`commands/update_mirror.py`): the upstream
iterator is a list, the generator's output a list of changes.  The final
`for` loop emits one delete per ref left in `refs_to_update`. -/
def calculate_mirror_updates (mirror_refs : RefMap) (upstream_refs : List Ref)
    (include_filter exclude_filter : String → Bool) : List RefChange :=
  let refs_to_update := mirror_refs.filter (fun p => include_filter p.1 && !exclude_filter p.1)
  let res := mirrorLoop include_filter exclude_filter upstream_refs refs_to_update
  res.1 ++ res.2.map (fun p => ⟨p.1, p.2, NULL_OBJECT_ID⟩)

/-- Spec-side interpretation of applying one `RefChange` to a ref map (the
claim's `apply`): a delete removes the name, anything else sets it. -/
def applyChangeSpec (m : RefMap) (c : RefChange) : RefMap :=
  if c.new = NULL_OBJECT_ID then eraseRef m c.ref
  else eraseRef m c.ref ++ [(c.ref, c.new)]

/-- Spec-side `apply(C, M)`: fold the changes over the map. -/
def applyChangesSpec (m : RefMap) (cs : List RefChange) : RefMap :=
  cs.foldl applyChangeSpec m

/-- The object id the upstream sequence finally assigns to a name (later
entries win), i.e. the claim's `U` read as a map. -/
def lookupLast : List Ref → String → Option String
  | [], _ => none
  | r :: rest, n =>
    match lookupLast rest n with
    | some v => some v
    | none => if r.name = n then some r.object_id else none

/-- The last change in a list that touches a given name. -/
def lastTouch : List RefChange → String → Option RefChange
  | [], _ => none
  | c :: rest, n =>
    match lastTouch rest n with
    | some c2 => some c2
    | none => if c.ref = n then some c else none

/-- Erasing every name of a ref list from a map, in order (the accumulated
effect of the loop's `pop` calls on `refs_to_update`). -/
def removeNames : List Ref → RefMap → RefMap
  | [], S => S
  | r :: rest, S => removeNames rest (eraseRef S r.name)

theorem lastTouch_cons (c : RefChange) (rest : List RefChange) (n : String) :
    lastTouch (c :: rest) n =
      match lastTouch rest n with
      | some c2 => some c2
      | none => if c.ref = n then some c else none := rfl

theorem lookupLast_cons (r : Ref) (rest : List Ref) (n : String) :
    lookupLast (r :: rest) n =
      match lookupLast rest n with
      | some v => some v
      | none => if r.name = n then some r.object_id else none := rfl

theorem lookupRef_eraseRef (m : RefMap) (r n : String) :
    lookupRef (eraseRef m r) n = if r = n then none else lookupRef m n := by
  induction m with
  | nil => by_cases h : r = n <;> simp [eraseRef, lookupRef, h]
  | cons p rest ih =>
    simp only [eraseRef]
    by_cases h1 : p.1 = r
    · rw [if_pos h1, ih]
      by_cases h2 : r = n
      · simp [h2]
      · have h3 : ¬ p.1 = n := by rw [h1]; exact h2
        simp [h2, lookupRef, h3]
    · rw [if_neg h1]
      simp only [lookupRef]
      by_cases h2 : p.1 = n
      · have h3 : ¬ r = n := by
          intro he
          exact h1 (by rw [h2, he])
        simp [h2, h3]
      · simp [h2, ih]

theorem lookupRef_append (a b : RefMap) (n : String) :
    lookupRef (a ++ b) n =
      match lookupRef a n with
      | some w => some w
      | none => lookupRef b n := by
  induction a with
  | nil => simp [lookupRef]
  | cons p rest ih =>
    by_cases h : p.1 = n <;> simp [lookupRef, h, ih]

theorem lookupRef_applyChangeSpec (m : RefMap) (c : RefChange) (n : String) :
    lookupRef (applyChangeSpec m c) n =
      if c.ref = n then (if c.new = NULL_OBJECT_ID then none else some c.new)
      else lookupRef m n := by
  unfold applyChangeSpec
  by_cases hnew : c.new = NULL_OBJECT_ID
  · simp [hnew, lookupRef_eraseRef]
  · rw [if_neg hnew, lookupRef_append, lookupRef_eraseRef]
    by_cases href : c.ref = n
    · simp [href, lookupRef, hnew]
    · simp only [href, if_false, if_neg hnew]
      cases h : lookupRef m n <;> simp [lookupRef, href]

theorem lookupRef_applyChangesSpec (cs : List RefChange) (m : RefMap) (n : String) :
    lookupRef (applyChangesSpec m cs) n =
      match lastTouch cs n with
      | some c => if c.new = NULL_OBJECT_ID then none else some c.new
      | none => lookupRef m n := by
  induction cs generalizing m with
  | nil => simp [applyChangesSpec, lastTouch]
  | cons c rest ih =>
    have step : applyChangesSpec m (c :: rest) = applyChangesSpec (applyChangeSpec m c) rest := rfl
    rw [step, ih, lastTouch_cons]
    cases hlt : lastTouch rest n with
    | some c2 => simp
    | none =>
      rw [lookupRef_applyChangeSpec]
      by_cases href : c.ref = n <;> simp [href]

theorem lastTouch_append (xs ys : List RefChange) (n : String) :
    lastTouch (xs ++ ys) n =
      match lastTouch ys n with
      | some c => some c
      | none => lastTouch xs n := by
  induction xs with
  | nil =>
    show lastTouch ys n = _
    cases lastTouch ys n <;> simp [lastTouch]
  | cons x xs ih =>
    simp only [List.cons_append, lastTouch_cons, ih]
    cases lastTouch ys n <;> cases lastTouch xs n <;> simp

theorem lastTouch_eq_none (cs : List RefChange) (n : String)
    (h : ∀ c ∈ cs, c.ref ≠ n) : lastTouch cs n = none := by
  induction cs with
  | nil => rfl
  | cons c rest ih =>
    rw [lastTouch_cons, ih (fun c hc => h c (List.mem_cons_of_mem _ hc))]
    simp [h c (List.mem_cons_self _ _)]

theorem lookupLast_isSome (u : List Ref) (n : String) (h : n ∈ u.map Ref.name) :
    (lookupLast u n).isSome = true := by
  induction u with
  | nil => simp at h
  | cons r rest ih =>
    rw [List.map_cons, List.mem_cons] at h
    rw [lookupLast_cons]
    rcases h with h1 | h1
    · cases hlt : lookupLast rest n <;> simp [← h1]
    · have := ih h1
      cases hlt : lookupLast rest n <;> simp_all

theorem lookupLast_eq_none (u : List Ref) (n : String) (h : n ∉ u.map Ref.name) :
    lookupLast u n = none := by
  induction u with
  | nil => rfl
  | cons r rest ih =>
    rw [List.map_cons, List.mem_cons] at h
    push_neg at h
    rw [lookupLast_cons, ih h.2]
    have h1 : r.name ≠ n := fun he => h.1 he.symm
    simp [h1]

theorem lastTouch_cons_ne {c : RefChange} {n : String} (h : c.ref ≠ n)
    (rest : List RefChange) : lastTouch (c :: rest) n = lastTouch rest n := by
  rw [lastTouch_cons]
  cases lastTouch rest n <;> simp [h]

theorem lookupLast_cons_ne {r : Ref} {n : String} (h : r.name ≠ n) (rest : List Ref) :
    lookupLast (r :: rest) n = lookupLast rest n := by
  rw [lookupLast_cons]
  cases lookupLast rest n <;> simp [h]

/-- The value a change list finally leaves at a name, with fallback `fb` when
no change touches the name. -/
def touchVal (cs : List RefChange) (fb : Option String) (n : String) : Option String :=
  match lastTouch cs n with
  | some c => some c.new
  | none => fb

theorem touchVal_of_some {cs : List RefChange} {n : String} {c : RefChange}
    (h : lastTouch cs n = some c) (fb : Option String) : touchVal cs fb n = some c.new := by
  simp [touchVal, h]

theorem touchVal_of_none {cs : List RefChange} {n : String}
    (h : lastTouch cs n = none) (fb : Option String) : touchVal cs fb n = fb := by
  simp [touchVal, h]

theorem touchVal_cons_ne {c : RefChange} {n : String} (h : c.ref ≠ n)
    (cs : List RefChange) (fb : Option String) :
    touchVal (c :: cs) fb n = touchVal cs fb n := by
  simp [touchVal, lastTouch_cons_ne h]

theorem mem_eraseRef {p : String × String} {m : RefMap} {n : String}
    (h : p ∈ eraseRef m n) : p ∈ m := by
  induction m with
  | nil => simp [eraseRef] at h
  | cons q rest ih =>
    simp only [eraseRef] at h
    by_cases h1 : q.1 = n
    · exact List.mem_cons_of_mem _ (ih (by simpa [h1] using h))
    · rw [if_neg h1] at h
      rcases List.mem_cons.mp h with h2 | h2
      · exact h2 ▸ List.mem_cons_self _ _
      · exact List.mem_cons_of_mem _ (ih h2)

theorem mem_removeNames {p : String × String} {u : List Ref} {S : RefMap}
    (h : p ∈ removeNames u S) : p ∈ S := by
  induction u generalizing S with
  | nil => exact h
  | cons r rest ih => exact mem_eraseRef (ih h)

theorem lookupRef_removeNames (u : List Ref) (S : RefMap) (n : String) :
    lookupRef (removeNames u S) n =
      if n ∈ u.map Ref.name then none else lookupRef S n := by
  induction u generalizing S with
  | nil => simp [removeNames]
  | cons r rest ih =>
    show lookupRef (removeNames rest (eraseRef S r.name)) n = _
    rw [ih, List.map_cons, lookupRef_eraseRef]
    by_cases h1 : n ∈ rest.map Ref.name
    · simp [h1]
    · by_cases h2 : r.name = n
      · simp [h1, h2]
      · have h3 : ¬ n = r.name := fun he => h2 he.symm
        simp [h1, h2, h3]

theorem lookupRef_isSome_iff (R : RefMap) (n : String) :
    (lookupRef R n).isSome = true ↔ n ∈ R.map Prod.fst := by
  induction R with
  | nil => simp [lookupRef]
  | cons p rest ih =>
    rw [List.map_cons, List.mem_cons]
    by_cases h : p.1 = n
    · rw [lookupRef, if_pos h]
      simp only [Option.isSome_some]
      exact ⟨fun _ => Or.inl h.symm, fun _ => trivial⟩
    · have h2 : ¬ n = p.1 := fun he => h he.symm
      rw [lookupRef, if_neg h]
      simp [ih, h2]

theorem lastTouch_deletes_of_not_mem {R : RefMap} {n : String}
    (h : n ∉ R.map Prod.fst) :
    lastTouch (R.map (fun p => (⟨p.1, p.2, NULL_OBJECT_ID⟩ : RefChange))) n = none := by
  apply lastTouch_eq_none
  intro c hc
  rcases List.mem_map.mp hc with ⟨p, hp, hpc⟩
  intro he
  exact h (List.mem_map.mpr ⟨p, hp, by rw [← hpc] at he; exact he⟩)

theorem lastTouch_deletes_of_mem {R : RefMap} {n : String}
    (h : n ∈ R.map Prod.fst) :
    ∃ c, lastTouch (R.map (fun p => (⟨p.1, p.2, NULL_OBJECT_ID⟩ : RefChange))) n = some c
      ∧ c.new = NULL_OBJECT_ID := by
  induction R with
  | nil => simp at h
  | cons p R ih =>
    rw [List.map_cons, List.mem_cons] at h
    by_cases h1 : n ∈ R.map Prod.fst
    · rcases ih h1 with ⟨c, hc, hnew⟩
      refine ⟨c, ?_, hnew⟩
      rw [List.map_cons, lastTouch_cons, hc]
    · have h2 : p.1 = n := by tauto
      refine ⟨⟨p.1, p.2, NULL_OBJECT_ID⟩, ?_, rfl⟩
      rw [List.map_cons, lastTouch_cons, lastTouch_deletes_of_not_mem h1]
      simp [h2]

theorem mirrorLoop_cons (inc exc : String → Bool) (r : Ref) (rest : List Ref) (S : RefMap) :
    mirrorLoop inc exc (r :: rest) S =
      if !(inc r.name) || exc r.name then mirrorLoop inc exc rest (eraseRef S r.name)
      else
        if (lookupRef S r.name).getD NULL_OBJECT_ID ≠ r.object_id then
          (⟨r.name, (lookupRef S r.name).getD NULL_OBJECT_ID, r.object_id⟩ ::
              (mirrorLoop inc exc rest (eraseRef S r.name)).1,
            (mirrorLoop inc exc rest (eraseRef S r.name)).2)
        else mirrorLoop inc exc rest (eraseRef S r.name) := rfl

theorem mirrorLoop_spec (inc exc : String → Bool) :
    ∀ u : List Ref, (∀ q ∈ u, q.object_id ≠ NULL_OBJECT_ID) → ∀ S : RefMap,
      (mirrorLoop inc exc u S).2 = removeNames u S
      ∧ (∀ c ∈ (mirrorLoop inc exc u S).1,
          c.ref ∈ u.map Ref.name ∧ (inc c.ref && !exc c.ref) = true
          ∧ ∃ q ∈ u, q.name = c.ref ∧ q.object_id = c.new)
      ∧ (∀ n, (inc n && !exc n) = true → n ∈ u.map Ref.name →
          touchVal (mirrorLoop inc exc u S).1 (lookupRef S n) n = lookupLast u n) := by
  intro u
  induction u with
  | nil =>
    intro _ S
    refine ⟨rfl, ?_, ?_⟩
    · intro c hc
      simp [mirrorLoop] at hc
    · intro n _ hn
      simp at hn
  | cons r rest ih =>
    intro hu S
    have hu2 : ∀ q ∈ rest, q.object_id ≠ NULL_OBJECT_ID :=
      fun q hq => hu q (List.mem_cons_of_mem _ hq)
    obtain ⟨ihA, ihB, ihC⟩ := ih hu2 (eraseRef S r.name)
    have hBweak : ∀ c ∈ (mirrorLoop inc exc rest (eraseRef S r.name)).1,
        c.ref ∈ (r :: rest).map Ref.name ∧ (inc c.ref && !exc c.ref) = true
        ∧ ∃ q ∈ r :: rest, q.name = c.ref ∧ q.object_id = c.new := by
      intro c hc
      obtain ⟨hm, hp, q, hq, hqe⟩ := ihB c hc
      exact ⟨by rw [List.map_cons]; exact List.mem_cons_of_mem _ hm, hp,
        q, List.mem_cons_of_mem _ hq, hqe⟩
    by_cases hskip : (!(inc r.name) || exc r.name) = true
    · rw [mirrorLoop_cons, if_pos hskip]
      refine ⟨ihA, hBweak, ?_⟩
      intro n hpass hn
      have hnr : n ≠ r.name := by
        intro he
        rw [he] at hpass
        simp only [Bool.and_eq_true, Bool.not_eq_true'] at hpass
        simp [hpass.1, hpass.2] at hskip
      have hn2 : n ∈ rest.map Ref.name := by
        rw [List.map_cons, List.mem_cons] at hn
        tauto
      have hC := ihC n hpass hn2
      rw [lookupRef_eraseRef, if_neg (fun he => hnr he.symm)] at hC
      rw [lookupLast_cons_ne (fun he => hnr he.symm)]
      exact hC
    · obtain ⟨hinc, hexc⟩ : inc r.name = true ∧ exc r.name = false := by
        simp only [Bool.or_eq_true, Bool.not_eq_true'] at hskip
        push_neg at hskip
        exact ⟨by simpa using hskip.1, by simpa using hskip.2⟩
      by_cases hemit : (lookupRef S r.name).getD NULL_OBJECT_ID ≠ r.object_id
      · rw [mirrorLoop_cons, if_neg hskip, if_pos hemit]
        refine ⟨ihA, ?_, ?_⟩
        · intro c hc
          rcases List.mem_cons.mp hc with hc1 | hc1
          · subst hc1
            exact ⟨by rw [List.map_cons]; exact List.mem_cons_self _ _,
              by simp [hinc, hexc], r, List.mem_cons_self _ _, rfl, rfl⟩
          · exact hBweak c hc1
        · intro n hpass hn
          by_cases hnr : n = r.name
          · rw [hnr] at hpass ⊢
            by_cases hnrest : r.name ∈ rest.map Ref.name
            · have hC := ihC r.name hpass hnrest
              cases hlt : lastTouch (mirrorLoop inc exc rest (eraseRef S r.name)).1 r.name with
              | none =>
                exfalso
                rw [touchVal_of_none hlt, lookupRef_eraseRef, if_pos rfl] at hC
                have hs := lookupLast_isSome rest r.name hnrest
                rw [← hC] at hs
                simp at hs
              | some c =>
                have hlt2 : lastTouch
                    (⟨r.name, (lookupRef S r.name).getD NULL_OBJECT_ID, r.object_id⟩ ::
                      (mirrorLoop inc exc rest (eraseRef S r.name)).1) r.name = some c := by
                  rw [lastTouch_cons, hlt]
                rw [touchVal_of_some hlt2]
                rw [touchVal_of_some hlt] at hC
                rw [lookupLast_cons, ← hC]
            · have hnone : lastTouch (mirrorLoop inc exc rest (eraseRef S r.name)).1 r.name = none := by
                apply lastTouch_eq_none
                intro c hc
                obtain ⟨hm, _, _⟩ := ihB c hc
                intro he
                rw [he] at hm
                exact hnrest hm
              have hlt2 : lastTouch
                  (⟨r.name, (lookupRef S r.name).getD NULL_OBJECT_ID, r.object_id⟩ ::
                    (mirrorLoop inc exc rest (eraseRef S r.name)).1) r.name =
                  some ⟨r.name, (lookupRef S r.name).getD NULL_OBJECT_ID, r.object_id⟩ := by
                rw [lastTouch_cons, hnone]
                simp
              rw [touchVal_of_some hlt2, lookupLast_cons,
                lookupLast_eq_none rest r.name hnrest]
              simp
          · have hn2 : n ∈ rest.map Ref.name := by
              rw [List.map_cons, List.mem_cons] at hn
              tauto
            have hC := ihC n hpass hn2
            rw [lookupRef_eraseRef, if_neg (fun he => hnr he.symm)] at hC
            rw [touchVal_cons_ne (fun he => hnr he.symm)]
            rw [lookupLast_cons_ne (fun he => hnr he.symm)]
            exact hC
      · rw [mirrorLoop_cons, if_neg hskip, if_neg hemit]
        push_neg at hemit
        refine ⟨ihA, hBweak, ?_⟩
        intro n hpass hn
        by_cases hnr : n = r.name
        · rw [hnr] at hpass ⊢
          by_cases hnrest : r.name ∈ rest.map Ref.name
          · have hC := ihC r.name hpass hnrest
            cases hlt : lastTouch (mirrorLoop inc exc rest (eraseRef S r.name)).1 r.name with
            | none =>
              exfalso
              rw [touchVal_of_none hlt, lookupRef_eraseRef, if_pos rfl] at hC
              have hs := lookupLast_isSome rest r.name hnrest
              rw [← hC] at hs
              simp at hs
            | some c =>
              rw [touchVal_of_some hlt]
              rw [touchVal_of_some hlt] at hC
              rw [lookupLast_cons, ← hC]
          · have hnone : lastTouch (mirrorLoop inc exc rest (eraseRef S r.name)).1 r.name = none := by
              apply lastTouch_eq_none
              intro c hc
              obtain ⟨hm, _, _⟩ := ihB c hc
              intro he
              rw [he] at hm
              exact hnrest hm
            rw [touchVal_of_none hnone]
            have hlook : lookupRef S r.name = some r.object_id := by
              cases hl : lookupRef S r.name with
              | none =>
                exfalso
                rw [hl] at hemit
                simp only [Option.getD_none] at hemit
                exact hu r (List.mem_cons_self _ _) hemit.symm
              | some v =>
                rw [hl] at hemit
                simp only [Option.getD_some] at hemit
                rw [hemit]
            rw [hlook, lookupLast_cons, lookupLast_eq_none rest r.name hnrest]
            simp
        · have hn2 : n ∈ rest.map Ref.name := by
            rw [List.map_cons, List.mem_cons] at hn
            tauto
          have hC := ihC n hpass hn2
          rw [lookupRef_eraseRef, if_neg (fun he => hnr he.symm)] at hC
          rw [lookupLast_cons_ne (fun he => hnr he.symm)]
          exact hC

theorem lastTouch_mem {cs : List RefChange} {n : String} {c : RefChange}
    (h : lastTouch cs n = some c) : c ∈ cs := by
  induction cs with
  | nil => simp [lastTouch] at h
  | cons d rest ih =>
    rw [lastTouch_cons] at h
    cases hlt : lastTouch rest n with
    | some c2 =>
      rw [hlt] at h
      simp only [Option.some.injEq] at h
      exact List.mem_cons_of_mem _ (ih (by rw [hlt, h]))
    | none =>
      rw [hlt] at h
      by_cases hd : d.ref = n
      · rw [if_pos hd] at h
        simp only [Option.some.injEq] at h
        exact h ▸ List.mem_cons_self _ _
      · rw [if_neg hd] at h
        exact absurd h (by simp)

theorem lookupRef_filter_pass (m : RefMap) (pred : String → Bool) (n : String)
    (h : pred n = true) :
    lookupRef (m.filter (fun p => pred p.1)) n = lookupRef m n := by
  induction m with
  | nil => rfl
  | cons p rest ih =>
    by_cases hp : p.1 = n
    · rw [List.filter_cons, if_pos (by rw [hp]; simpa using h)]
      simp [lookupRef, hp]
    · rw [List.filter_cons]
      by_cases hkeep : pred p.1 = true
      · simp only [hkeep, if_true]
        simp [lookupRef, hp, ih]
      · simp only [hkeep]
        simp [lookupRef, hp, ih]

/-- C1 counterexample: with mirror `{a ↦ x1, b ↦ NULL}`, empty upstream and an
include filter passing only `b`, `calculate_mirror_updates` emits a change
whose `old` and `new` are both `NULL_OBJECT_ID` (forbidden by the claim), and
applying the output to the mirror leaves `a ↦ x1`, so `apply(C, M)` is not `U`
restricted to the filter (which is empty). -/
theorem c1_counterexample_two_null_and_residue :
    calculate_mirror_updates [("a", "x1"), ("b", NULL_OBJECT_ID)] []
        (fun n => n == "b") (fun _ => false)
      = [⟨"b", NULL_OBJECT_ID, NULL_OBJECT_ID⟩]
    ∧ lookupRef
        (applyChangesSpec [("a", "x1"), ("b", NULL_OBJECT_ID)]
          (calculate_mirror_updates [("a", "x1"), ("b", NULL_OBJECT_ID)] []
            (fun n => n == "b") (fun _ => false)))
        "a" = some "x1" := by
  constructor <;> rfl

/-- C1 (amended): provided no mirror value and no upstream object id is
`NULL_OBJECT_ID`, applying the emitted changes to the mirror yields `U` on
every name passing the include/exclude filter and leaves the mirror unchanged
elsewhere (the claim's `apply(C, M) == U ∩ filter` holds on the filtered names
only; out-of-filter mirror entries survive); and every emitted change is
classified as exactly one of create, delete or update, never with both
endpoints `NULL_OBJECT_ID`. -/
theorem c1_calculate_mirror_updates_amended
    (mirror : RefMap) (upstream : List Ref) (inc exc : String → Bool)
    (hm : ∀ p ∈ mirror, p.2 ≠ NULL_OBJECT_ID)
    (hu : ∀ q ∈ upstream, q.object_id ≠ NULL_OBJECT_ID) :
    (∀ n, lookupRef (applyChangesSpec mirror
          (calculate_mirror_updates mirror upstream inc exc)) n
        = if inc n && !exc n then lookupLast upstream n else lookupRef mirror n)
    ∧ (∀ c ∈ calculate_mirror_updates mirror upstream inc exc,
        ¬(c.old = NULL_OBJECT_ID ∧ c.new = NULL_OBJECT_ID)
        ∧ ((c.is_create = true ∧ c.is_delete = false ∧ c.is_update = false)
          ∨ (c.is_create = false ∧ c.is_delete = true ∧ c.is_update = false)
          ∨ (c.is_create = false ∧ c.is_delete = false ∧ c.is_update = true))) := by
  obtain ⟨hA, hB, hC⟩ := mirrorLoop_spec inc exc upstream hu
    (mirror.filter (fun p => inc p.1 && !exc p.1))
  have hCdef : calculate_mirror_updates mirror upstream inc exc
      = (mirrorLoop inc exc upstream (mirror.filter (fun p => inc p.1 && !exc p.1))).1
        ++ (mirrorLoop inc exc upstream (mirror.filter (fun p => inc p.1 && !exc p.1))).2.map
            (fun p => ⟨p.1, p.2, NULL_OBJECT_ID⟩) := rfl
  have hS0sub : ∀ p ∈ mirror.filter (fun p => inc p.1 && !exc p.1), p ∈ mirror :=
    fun p hp => List.mem_of_mem_filter hp
  have hS0pass : ∀ p ∈ mirror.filter (fun p => inc p.1 && !exc p.1),
      (inc p.1 && !exc p.1) = true := fun p hp => by simpa using List.of_mem_filter hp
  constructor
  · intro n
    rw [hCdef, lookupRef_applyChangesSpec, lastTouch_append, hA]
    by_cases hpass : (inc n && !exc n) = true
    · rw [if_pos hpass]
      have hlookS0 : lookupRef (mirror.filter (fun p => inc p.1 && !exc p.1)) n
          = lookupRef mirror n :=
        lookupRef_filter_pass mirror (fun x => inc x && !exc x) n hpass
      by_cases hn : n ∈ upstream.map Ref.name
      · have hkeys : n ∉ (removeNames upstream
            (mirror.filter (fun p => inc p.1 && !exc p.1))).map Prod.fst := by
          rw [← lookupRef_isSome_iff, lookupRef_removeNames, if_pos hn]
          simp
        rw [lastTouch_deletes_of_not_mem hkeys]
        have hCn := hC n hpass hn
        cases hlt : lastTouch
            (mirrorLoop inc exc upstream (mirror.filter (fun p => inc p.1 && !exc p.1))).1 n with
        | some c =>
          obtain ⟨_, _, q, hq, hqn, hqo⟩ := hB c (lastTouch_mem hlt)
          have hnew : c.new ≠ NULL_OBJECT_ID := hqo ▸ hu q hq
          rw [touchVal_of_some hlt] at hCn
          show (if c.new = NULL_OBJECT_ID then none else some c.new) = lookupLast upstream n
          rw [if_neg hnew]
          exact hCn
        | none =>
          rw [touchVal_of_none hlt] at hCn
          show lookupRef mirror n = lookupLast upstream n
          rw [hlookS0] at hCn
          exact hCn
      · have hlastu : lookupLast upstream n = none := lookupLast_eq_none upstream n hn
        have hcs : lastTouch
            (mirrorLoop inc exc upstream (mirror.filter (fun p => inc p.1 && !exc p.1))).1 n
            = none := by
          apply lastTouch_eq_none
          intro c hc
          obtain ⟨hm2, _, _⟩ := hB c hc
          intro he
          rw [he] at hm2
          exact hn hm2
        by_cases hmem : n ∈ (removeNames upstream
            (mirror.filter (fun p => inc p.1 && !exc p.1))).map Prod.fst
        · obtain ⟨c, hcdel, hcnew⟩ := lastTouch_deletes_of_mem hmem
          rw [hcdel, hlastu]
          simp [hcnew]
        · rw [lastTouch_deletes_of_not_mem hmem, hcs, hlastu]
          rw [← lookupRef_isSome_iff, lookupRef_removeNames, if_neg hn, hlookS0] at hmem
          cases hl : lookupRef mirror n with
          | none => rfl
          | some v =>
            rw [hl] at hmem
            simp at hmem
    · rw [if_neg hpass]
      have hcs : lastTouch
          (mirrorLoop inc exc upstream (mirror.filter (fun p => inc p.1 && !exc p.1))).1 n
          = none := by
        apply lastTouch_eq_none
        intro c hc
        obtain ⟨_, hp, _⟩ := hB c hc
        intro he
        rw [he] at hp
        exact hpass hp
      have hdels : lastTouch ((removeNames upstream
          (mirror.filter (fun p => inc p.1 && !exc p.1))).map
            (fun p => (⟨p.1, p.2, NULL_OBJECT_ID⟩ : RefChange))) n = none := by
        apply lastTouch_deletes_of_not_mem
        intro hmem
        rcases List.mem_map.mp hmem with ⟨p, hp, hpn⟩
        have := hS0pass p (mem_removeNames hp)
        rw [hpn] at this
        exact hpass this
      rw [hdels, hcs]
  · intro c hc
    rw [hCdef] at hc
    rcases List.mem_append.mp hc with hc1 | hc1
    · obtain ⟨_, _, q, hq, hqn, hqo⟩ := hB c hc1
      have hnew : c.new ≠ NULL_OBJECT_ID := hqo ▸ hu q hq
      refine ⟨fun h => hnew h.2, ?_⟩
      by_cases hold : c.old = NULL_OBJECT_ID
      · exact Or.inl (by simp [RefChange.is_create, RefChange.is_delete,
          RefChange.is_update, hold, hnew])
      · exact Or.inr (Or.inr (by simp [RefChange.is_create, RefChange.is_delete,
          RefChange.is_update, hold, hnew]))
    · rw [hA] at hc1
      rcases List.mem_map.mp hc1 with ⟨p, hp, hpc⟩
      have hold : p.2 ≠ NULL_OBJECT_ID := hm p (hS0sub p (mem_removeNames hp))
      rw [← hpc]
      refine ⟨fun h => hold h.1, ?_⟩
      exact Or.inr (Or.inl (by simp [RefChange.is_create, RefChange.is_delete,
        RefChange.is_update, hold]))

/-- Witness for C1 (amended): one update, one create, one delete and one
filtered-out upstream ref. -/
theorem c1_calculate_mirror_updates_amended_witness :
    (∀ n, lookupRef (applyChangesSpec [("refs/heads/a", "x1"), ("refs/heads/gone", "x3")]
          (calculate_mirror_updates [("refs/heads/a", "x1"), ("refs/heads/gone", "x3")]
            [⟨"refs/heads/a", "x2"⟩, ⟨"refs/heads/b", "x4"⟩, ⟨"refs/x", "x5"⟩]
            (fun n => n != "refs/x") (fun _ => false))) n
        = if (fun n => n != "refs/x") n && !(fun _ => false) n
          then lookupLast [⟨"refs/heads/a", "x2"⟩, ⟨"refs/heads/b", "x4"⟩, ⟨"refs/x", "x5"⟩] n
          else lookupRef [("refs/heads/a", "x1"), ("refs/heads/gone", "x3")] n)
    ∧ (∀ c ∈ calculate_mirror_updates [("refs/heads/a", "x1"), ("refs/heads/gone", "x3")]
          [⟨"refs/heads/a", "x2"⟩, ⟨"refs/heads/b", "x4"⟩, ⟨"refs/x", "x5"⟩]
          (fun n => n != "refs/x") (fun _ => false),
        ¬(c.old = NULL_OBJECT_ID ∧ c.new = NULL_OBJECT_ID)
        ∧ ((c.is_create = true ∧ c.is_delete = false ∧ c.is_update = false)
          ∨ (c.is_create = false ∧ c.is_delete = true ∧ c.is_update = false)
          ∨ (c.is_create = false ∧ c.is_delete = false ∧ c.is_update = true))) :=
  c1_calculate_mirror_updates_amended _ _ _ _ (by decide) (by decide)

/-! ## Request generators of the fetch and push state machines
(`kalandra/transports/base.py`).  Outbound packets carry string payloads;
`data_from_string` appends the newline the Python helper adds. -/

/-- An outbound packet: a `DATA` payload, or one of the two framing markers
the request generators emit. -/
inductive OutPacket where
  | data (payload : String)
  | flush
  | delimiter
  deriving DecidableEq, Repr

/-- `PacketLine.data_from_string`: encodes `f"{data}\n"`. -/
def data_from_string (s : String) : OutPacket := .data (s ++ "\n")

/-- The loop body of `PushConnection._generate_receive_commands`: `first`
is cleared only when a packet is actually yielded. -/
def generateReceiveGo (supports_delete : Bool) (use_capabilities : List String) :
    List RefChange → Bool → List OutPacket
  | [], _ => [.flush]
  | c :: rest, first =>
    if c.is_delete && !supports_delete then
      generateReceiveGo supports_delete use_capabilities rest first
    else
      let line := c.old ++ " " ++ c.new ++ " " ++ c.ref
      let line2 := if first then line ++ "\x00 " ++ String.intercalate " " use_capabilities
        else line
      data_from_string line2 :: generateReceiveGo supports_delete use_capabilities rest false

/-- `PushConnection._generate_receive_commands`. -/
def generate_receive_commands (changes : List RefChange) (supports_delete : Bool)
    (use_capabilities : List String) : List OutPacket :=
  generateReceiveGo supports_delete use_capabilities changes true

/-- `PushConnection._push_request_v1`: the in-use capability selection
(`report-status`, `side-band-64k`, `object-format=sha1` when advertised, plus
the unconditional agent token) and the generated command packets.  The Python
set is modelled as a list in insertion order. -/
def push_request_v1 (capabilities : List String) (changes : List RefChange) :
    List String × List OutPacket :=
  let use_capabilities :=
    (if capabilities.contains "report-status" then ["report-status"] else [])
    ++ (if capabilities.contains "side-band-64k" then ["side-band-64k"] else [])
    ++ (if capabilities.contains "object-format=sha1" then ["object-format=sha1"] else [])
    ++ ["agent=git/2.46.00000"]
  (use_capabilities,
    generate_receive_commands changes (capabilities.contains "delete-refs") use_capabilities)

/-- Whether a string contains a NUL character. -/
def hasNul (s : String) : Bool := s.data.any (fun ch => ch == Char.ofNat 0)

theorem hasNul_append (a b : String) : hasNul (a ++ b) = (hasNul a || hasNul b) := by
  simp [hasNul, String.data_append, List.any_append]

theorem generateReceiveGo_false (sd : Bool) (caps : List String) (l : List RefChange) :
    generateReceiveGo sd caps l false =
      (l.filter (fun c => !(c.is_delete && !sd))).map
        (fun c => OutPacket.data (c.old ++ " " ++ c.new ++ " " ++ c.ref ++ "\n"))
      ++ [OutPacket.flush] := by
  induction l with
  | nil => rfl
  | cons c rest ih =>
    simp only [List.filter_cons]
    cases hd : (c.is_delete && !sd) with
    | true =>
      have hstep : generateReceiveGo sd caps (c :: rest) false
          = generateReceiveGo sd caps rest false := by
        simp [generateReceiveGo, hd]
      rw [hstep, ih]
      simp
    | false =>
      have hstep : generateReceiveGo sd caps (c :: rest) false
          = data_from_string (c.old ++ " " ++ c.new ++ " " ++ c.ref)
            :: generateReceiveGo sd caps rest false := by
        simp [generateReceiveGo, hd]
      rw [hstep, ih]
      simp [data_from_string]

theorem generateReceiveGo_true (sd : Bool) (caps : List String) (l : List RefChange) :
    generateReceiveGo sd caps l true =
      match l.filter (fun c => !(c.is_delete && !sd)) with
      | [] => [OutPacket.flush]
      | c :: rest =>
        OutPacket.data (c.old ++ " " ++ c.new ++ " " ++ c.ref ++ "\x00 "
            ++ String.intercalate " " caps ++ "\n")
          :: rest.map (fun c => OutPacket.data (c.old ++ " " ++ c.new ++ " " ++ c.ref ++ "\n"))
          ++ [OutPacket.flush] := by
  induction l with
  | nil => rfl
  | cons c rest ih =>
    simp only [List.filter_cons]
    cases hd : (c.is_delete && !sd) with
    | true =>
      have hstep : generateReceiveGo sd caps (c :: rest) true
          = generateReceiveGo sd caps rest true := by
        simp [generateReceiveGo, hd]
      rw [hstep, ih]
      simp
    | false =>
      have hstep : generateReceiveGo sd caps (c :: rest) true
          = data_from_string (c.old ++ " " ++ c.new ++ " " ++ c.ref ++ "\x00 "
              ++ String.intercalate " " caps)
            :: generateReceiveGo sd caps rest false := by
        simp [generateReceiveGo, hd]
      rw [hstep, generateReceiveGo_false]
      simp [data_from_string]

/-- C5: for every advertised capability set and change list, the command
section is exactly one `DATA` packet `"<old> <new> <ref>"` per change except
that deletes are dropped when `delete-refs` is not advertised; the in-use
capability tokens (space-separated, after a NUL and a space) are appended to
the first emitted packet and only to it (witnessed by NUL occurrence, under the
assumption that no change field contains a NUL); and the section ends with
FLUSH. -/
theorem c5_push_command_section (advertised : List String) (changes : List RefChange)
    (hNul : ∀ c ∈ changes, hasNul c.old = false ∧ hasNul c.new = false ∧ hasNul c.ref = false) :
    ((push_request_v1 advertised changes).2 =
      match changes.filter (fun c => !(c.is_delete && !(advertised.contains "delete-refs"))) with
      | [] => [OutPacket.flush]
      | c :: rest =>
        OutPacket.data (c.old ++ " " ++ c.new ++ " " ++ c.ref ++ "\x00 "
            ++ String.intercalate " " (push_request_v1 advertised changes).1 ++ "\n")
          :: rest.map (fun c => OutPacket.data (c.old ++ " " ++ c.new ++ " " ++ c.ref ++ "\n"))
          ++ [OutPacket.flush])
    ∧ (∀ s, (push_request_v1 advertised changes).2.head? = some (OutPacket.data s) →
        hasNul s = true)
    ∧ (∀ s, OutPacket.data s ∈ (push_request_v1 advertised changes).2.tail →
        hasNul s = false) := by
  have hmain : (push_request_v1 advertised changes).2 =
      match changes.filter (fun c => !(c.is_delete && !(advertised.contains "delete-refs"))) with
      | [] => [OutPacket.flush]
      | c :: rest =>
        OutPacket.data (c.old ++ " " ++ c.new ++ " " ++ c.ref ++ "\x00 "
            ++ String.intercalate " " (push_request_v1 advertised changes).1 ++ "\n")
          :: rest.map (fun c => OutPacket.data (c.old ++ " " ++ c.new ++ " " ++ c.ref ++ "\n"))
          ++ [OutPacket.flush] := by
    show generateReceiveGo (advertised.contains "delete-refs")
      (push_request_v1 advertised changes).1 changes true = _
    rw [generateReceiveGo_true]
  refine ⟨hmain, ?_, ?_⟩
  · intro s hs
    rw [hmain] at hs
    cases hf : changes.filter (fun c => !(c.is_delete && !(advertised.contains "delete-refs"))) with
    | nil =>
      rw [hf] at hs
      simp at hs
    | cons c rest =>
      rw [hf] at hs
      have hs2 : OutPacket.data (c.old ++ " " ++ c.new ++ " " ++ c.ref ++ "\x00 "
          ++ String.intercalate " " (push_request_v1 advertised changes).1 ++ "\n")
          = OutPacket.data s := by simpa using hs
      injection hs2 with hp
      subst hp
      have hz : hasNul "\x00 " = true := by decide
      simp [hasNul_append, hz]
  · intro s hs
    rw [hmain] at hs
    cases hf : changes.filter (fun c => !(c.is_delete && !(advertised.contains "delete-refs"))) with
    | nil =>
      rw [hf] at hs
      simp at hs
    | cons c rest =>
      rw [hf] at hs
      simp only [List.tail_cons] at hs
      rcases List.mem_append.mp hs with hs1 | hs1
      · rcases List.mem_map.mp hs1 with ⟨d, hd, hde⟩
        have hdch : d ∈ changes := List.mem_of_mem_filter
          (by rw [hf]; exact List.mem_cons_of_mem _ hd)
        obtain ⟨h1, h2, h3⟩ := hNul d hdch
        have hde2 : OutPacket.data (d.old ++ " " ++ d.new ++ " " ++ d.ref ++ "\n")
            = OutPacket.data s := hde
        injection hde2 with hp
        subst hp
        have hsp : hasNul " " = false := by decide
        have hnl : hasNul "\n" = false := by decide
        simp [hasNul_append, h1, h2, h3, hsp, hnl]
      · simp at hs1

/-- Witness for C5: one update and one delete against a server without
`delete-refs`. -/
theorem c5_push_command_section_witness :
    ((push_request_v1 ["report-status"]
        [⟨"refs/heads/m", "a1", "b2"⟩, ⟨"refs/heads/d", "c3", NULL_OBJECT_ID⟩]).2 =
      match [⟨"refs/heads/m", "a1", "b2"⟩,
          (⟨"refs/heads/d", "c3", NULL_OBJECT_ID⟩ : RefChange)].filter
          (fun c => !(c.is_delete && !(["report-status"].contains "delete-refs"))) with
      | [] => [OutPacket.flush]
      | c :: rest =>
        OutPacket.data (c.old ++ " " ++ c.new ++ " " ++ c.ref ++ "\x00 "
            ++ String.intercalate " " (push_request_v1 ["report-status"]
                [⟨"refs/heads/m", "a1", "b2"⟩, ⟨"refs/heads/d", "c3", NULL_OBJECT_ID⟩]).1 ++ "\n")
          :: rest.map (fun c => OutPacket.data (c.old ++ " " ++ c.new ++ " " ++ c.ref ++ "\n"))
          ++ [OutPacket.flush])
    ∧ (∀ s, (push_request_v1 ["report-status"]
          [⟨"refs/heads/m", "a1", "b2"⟩, ⟨"refs/heads/d", "c3", NULL_OBJECT_ID⟩]).2.head?
          = some (OutPacket.data s) → hasNul s = true) :=
  ⟨(c5_push_command_section ["report-status"] _ (by decide)).1,
   (c5_push_command_section ["report-status"] _ (by decide)).2.1⟩

/-- Insertion of a string into a sorted list (for Python's `sorted`). -/
def insertSorted (s : String) : List String → List String
  | [] => [s]
  | x :: xs => if s ≤ x then s :: x :: xs else x :: insertSorted s xs

/-- Python `sorted` on a list of strings (insertion sort). -/
def sortStrings : List String → List String
  | [] => []
  | x :: xs => insertSorted x (sortStrings xs)

/-- `FetchConnection._generate_fetch_v1_request`: first `want` carries the
sorted capability list (`agent=kalandra`, plus `multi_ack_detailed` when
advertised); `have` lines skip `NULL_OBJECT_ID`; then FLUSH and `done`.
`none` models the `assert len(want) >= 1` failing. -/
def generate_fetch_v1_request (capabilities : List String) (want : List String)
    (have_ids : List String) : Option (List OutPacket) :=
  let caps := ["agent=kalandra"]
    ++ (if capabilities.contains "multi_ack_detailed" then ["multi_ack_detailed"] else [])
  match want with
  | [] => none
  | w :: rest =>
    some (data_from_string ("want " ++ w ++ " " ++ String.intercalate " " (sortStrings caps))
      :: rest.map (fun o => data_from_string ("want " ++ o))
      ++ (have_ids.filter (fun o => o ≠ NULL_OBJECT_ID)).map
          (fun o => data_from_string ("have " ++ o))
      ++ [OutPacket.flush, data_from_string "done"])

/-- The argument list `_fetch_objects_v2` passes to the `fetch` command:
`wait-for-done` when advertised, then one `have <oid>` per have (with no
`NULL_OBJECT_ID` filtering), one `want <oid>` per want, then `done`. -/
def fetch_v2_args (capabilities : List String) (objects : List String)
    (have_ids : List String) : List String :=
  (if capabilities.contains "wait-for-done" then ["wait-for-done"] else [])
  ++ have_ids.map (fun o => "have " ++ o)
  ++ objects.map (fun o => "want " ++ o)
  ++ ["done"]

/-- `FetchConnection._generate_command_v2`: `command=<name>`, capability
packets, DELIMITER, argument packets, FLUSH. -/
def generate_command_v2 (command : String) (capabilities : List (String × String))
    (args : List String) : List OutPacket :=
  data_from_string ("command=" ++ command)
  :: capabilities.map (fun kv =>
      data_from_string (if kv.2.length > 0 then kv.1 ++ "=" ++ kv.2 else kv.1))
  ++ [OutPacket.delimiter]
  ++ args.map data_from_string
  ++ [OutPacket.flush]

/-- The packet sequence `_fetch_objects_v2` sends for its `fetch` command. -/
def fetch_v2_request (capabilities : List String) (objects : List String)
    (have_ids : List String) : List OutPacket :=
  generate_command_v2 "fetch" [] (fetch_v2_args capabilities objects have_ids)

/-- C7: the claim says `NULL_OBJECT_ID` is dropped from the have set on both
negotiation paths, but the v2 path performs no filtering: with
`have = {NULL_OBJECT_ID}` the v2 `fetch` command contains the packet
`have <40 zeros>`, while the v1 request for the same input indeed omits it. -/
theorem c7_null_have_emitted_on_v2 :
    OutPacket.data ("have " ++ NULL_OBJECT_ID ++ "\n")
      ∈ fetch_v2_request [] ["abc"] [NULL_OBJECT_ID]
    ∧ generate_fetch_v1_request [] ["abc"] [NULL_OBJECT_ID]
      = some [OutPacket.data "want abc agent=kalandra\n",
          OutPacket.flush, OutPacket.data "done\n"] := by
  constructor
  · decide
  · decide

/-! ## The v2 acknowledgments section (`FetchConnection._process_ack_section`) -/

/-- Python `bytes.startswith` on ASCII strings. -/
def strStartsWith (s p : String) : Bool := p.data.isPrefixOf s.data

/-- Python slicing `s[n:]` (by character). -/
def strDropChars (s : String) (n : Nat) : String := ⟨s.data.drop n⟩

/-- A Python `str.strip()` whitespace character. -/
def isStripSpace (c : Char) : Bool :=
  c == ' ' || c == '\t' || c == '\n' || c == '\r' || c == '\x0b' || c == '\x0c'

/-- Python `str.strip()`: drop whitespace from both ends. -/
def strStrip (s : String) : String :=
  ⟨((s.data.dropWhile isStripSpace).reverse.dropWhile isStripSpace).reverse⟩

/-- The `async for` body of `_process_ack_section` over the section's DATA
payloads (decoded as strings): break on `"nak\n"`, remove the object id of a
line starting with `"ack\x00"` from the missing set, break after `"ready\n"`.
The missing set is modelled as a list. -/
def ackLoop : List String → List String → List String
  | missing, [] => missing
  | missing, l :: rest =>
    if l = "nak\n" then missing
    else
      let missing2 := if strStartsWith l "ack\x00"
        then missing.filter (fun o => o ≠ strStrip (strDropChars l 4))
        else missing
      if l = "ready\n" then missing2 else ackLoop missing2 rest

/-- `_process_ack_section`: after the loop, a FLUSH terminator raises
`ConnectionException` carrying the remaining missing set
(`NegotiationFailed`); a DELIMITER terminator returns normally. -/
def process_ack_section (lines : List String) (terminator : PacketLineType)
    (missing : List String) : Except (List String) (List String) :=
  let m := ackLoop missing lines
  if terminator = .FLUSH then .error m else .ok m

/-- C3 evidence: a protocol `ACK <oid>` line is not recognized by the code's
matcher (which looks for the lowercase, NUL-separated prefix `"ack\x00"` that
no protocol line carries), so the acknowledged want is NOT removed and a FLUSH
terminator raises `NegotiationFailed` with the acknowledged oid still
reported missing; with a DELIMITER terminator the section returns normally,
still without having removed the acknowledged want. -/
theorem c3_ack_lines_never_match :
    process_ack_section ["ACK abc\n"] .FLUSH ["abc"] = .error ["abc"]
    ∧ process_ack_section ["ACK abc\n"] .DELIMITER ["abc"] = .ok ["abc"]
    ∧ ackLoop ["abc"] ["ACK abc\n"] = ["abc"] := by
  refine ⟨rfl, rfl, rfl⟩

/-! ## The v2 packfile section demultiplexer (`FetchConnection._fetch_objects_v2`) -/

/-- A UTF-8 continuation byte. -/
def utf8Cont (b : Nat) : Bool := decide (128 ≤ b ∧ b ≤ 191)

/-- Strict (RFC 3629) UTF-8 validity of a byte sequence, as enforced by
Python's `bytes.decode("utf-8")`. -/
def utf8Valid : List Nat → Bool
  | [] => true
  | b :: rest =>
    if b ≤ 127 then utf8Valid rest
    else if 194 ≤ b ∧ b ≤ 223 then
      match rest with
      | c1 :: r => utf8Cont c1 && utf8Valid r
      | _ => false
    else if b = 224 then
      match rest with
      | c1 :: c2 :: r => decide (160 ≤ c1 ∧ c1 ≤ 191) && utf8Cont c2 && utf8Valid r
      | _ => false
    else if 225 ≤ b ∧ b ≤ 236 then
      match rest with
      | c1 :: c2 :: r => utf8Cont c1 && utf8Cont c2 && utf8Valid r
      | _ => false
    else if b = 237 then
      match rest with
      | c1 :: c2 :: r => decide (128 ≤ c1 ∧ c1 ≤ 159) && utf8Cont c2 && utf8Valid r
      | _ => false
    else if 238 ≤ b ∧ b ≤ 239 then
      match rest with
      | c1 :: c2 :: r => utf8Cont c1 && utf8Cont c2 && utf8Valid r
      | _ => false
    else if b = 240 then
      match rest with
      | c1 :: c2 :: c3 :: r =>
        decide (144 ≤ c1 ∧ c1 ≤ 191) && utf8Cont c2 && utf8Cont c3 && utf8Valid r
      | _ => false
    else if 241 ≤ b ∧ b ≤ 243 then
      match rest with
      | c1 :: c2 :: c3 :: r => utf8Cont c1 && utf8Cont c2 && utf8Cont c3 && utf8Valid r
      | _ => false
    else if b = 244 then
      match rest with
      | c1 :: c2 :: c3 :: r =>
        decide (128 ≤ c1 ∧ c1 ≤ 143) && utf8Cont c2 && utf8Cont c3 && utf8Valid r
      | _ => false
    else false

/-- Observable effects of the packfile loop: bytes appended to the output
sink, progress logged at info, errors logged at error. -/
inductive FetchEvent where
  | wrote (bs : List Nat)
  | info (msg : List Nat)
  | err (msg : List Nat)
  deriving DecidableEq, Repr

/-- The packfile-section loop of `_fetch_objects_v2` over the section's DATA
payloads: band 1 appends `payload[1:]` to the output, band 2 decodes and logs
at info, band 3 decodes and logs at error and continues; any other band byte
is ignored.  `payload[0]` of an empty payload raises `IndexError`; a
non-UTF-8 band-2/3 payload raises `UnicodeDecodeError`. -/
def process_packfile_section : List (List Nat) → Except String (List FetchEvent)
  | [] => .ok []
  | [] :: _ => .error "IndexError"
  | (b :: tail) :: rest =>
    if b = 1 then
      (process_packfile_section rest).map (fun evs => .wrote tail :: evs)
    else if b = 2 then
      if utf8Valid tail then (process_packfile_section rest).map (fun evs => .info tail :: evs)
      else .error "UnicodeDecodeError"
    else if b = 3 then
      if utf8Valid tail then (process_packfile_section rest).map (fun evs => .err tail :: evs)
      else .error "UnicodeDecodeError"
    else process_packfile_section rest

/-- The event sequence the claim predicts for a packfile section. -/
def packfileEvents (packets : List (List Nat)) : List FetchEvent :=
  packets.filterMap (fun p =>
    match p with
    | 1 :: t => some (.wrote t)
    | 2 :: t => some (.info t)
    | 3 :: t => some (.err t)
    | _ => none)

/-- The bytes an event sequence writes to the output sink, in order. -/
def writtenBytes : List FetchEvent → List Nat
  | [] => []
  | .wrote bs :: evs => bs ++ writtenBytes evs
  | .info _ :: evs => writtenBytes evs
  | .err _ :: evs => writtenBytes evs

/-- Concatenation of byte chunks. -/
def concatBytes : List (List Nat) → List Nat
  | [] => []
  | x :: xs => x ++ concatBytes xs

theorem writtenBytes_packfileEvents (packets : List (List Nat)) :
    writtenBytes (packfileEvents packets) =
      concatBytes (packets.filterMap (fun p =>
        match p with
        | 1 :: t => some t
        | _ => none)) := by
  induction packets with
  | nil => rfl
  | cons p rest ih =>
    match p with
    | [] => simpa [packfileEvents, concatBytes] using ih
    | 0 :: t => simpa [packfileEvents, concatBytes, writtenBytes] using ih
    | 1 :: t => simpa [packfileEvents, concatBytes, writtenBytes] using ih
    | 2 :: t => simpa [packfileEvents, concatBytes, writtenBytes] using ih
    | 3 :: t => simpa [packfileEvents, concatBytes, writtenBytes] using ih
    | (b + 4) :: t => simpa [packfileEvents, concatBytes, writtenBytes] using ih

/-- A packfile-section payload the claim covers: non-empty (it carries a band
byte), with band-2/3 message bytes UTF-8-decodable. -/
def packfilePacketOk (p : List Nat) : Bool :=
  match p with
  | [] => false
  | 2 :: t => utf8Valid t
  | 3 :: t => utf8Valid t
  | _ => true

/-- C4 counterexample: the claim's "no exception is raised by the section" is
not unconditional.  A wire-legal empty DATA payload (`b"0004"`) raises
`IndexError` at `packet.data[0]`, and a band-2 packet whose message byte
`0xff` is not valid UTF-8 raises `UnicodeDecodeError` from
`packet.data[1:].decode("utf-8")`. -/
theorem c4_counterexample_section_exceptions :
    process_packfile_section [[]] = .error "IndexError"
    ∧ process_packfile_section [[2, 255]] = .error "UnicodeDecodeError" := by
  constructor <;> rfl

/-- C4 (amended): a packfile section whose DATA payloads are all non-empty
(they carry a band byte) and whose band-2/3 payloads are UTF-8-decodable is
processed without exception; the output sink receives exactly the in-order
concatenation of `payload[1:]` of the band-1 packets, band-2 packets are
logged at info, band-3 packets are logged at error with processing
continuing, and all other band bytes are ignored.  Outside that universe the
section does raise: an empty payload raises `IndexError` and a non-UTF-8
band-2/3 payload raises `UnicodeDecodeError`. -/
theorem c4_packfile_section (packets : List (List Nat))
    (h : ∀ p ∈ packets, packfilePacketOk p = true) :
    process_packfile_section packets = .ok (packfileEvents packets)
    ∧ writtenBytes (packfileEvents packets) =
        concatBytes (packets.filterMap (fun p =>
          match p with
          | 1 :: t => some t
          | _ => none)) := by
  refine ⟨?_, writtenBytes_packfileEvents packets⟩
  induction packets with
  | nil => rfl
  | cons p rest ih =>
    have hrest := ih (fun q hq => h q (List.mem_cons_of_mem _ hq))
    have hok := h p (List.mem_cons_self _ _)
    match p, hok with
    | [], hok => exact absurd hok (by simp [packfilePacketOk])
    | b :: t, hok =>
      by_cases hb1 : b = 1
      · subst hb1
        simp [process_packfile_section, packfileEvents, hrest, Except.map]
      · by_cases hb2 : b = 2
        · subst hb2
          have hv : utf8Valid t = true := by simpa [packfilePacketOk] using hok
          simp [process_packfile_section, packfileEvents, hrest, hv, Except.map]
        · by_cases hb3 : b = 3
          · subst hb3
            have hv : utf8Valid t = true := by simpa [packfilePacketOk] using hok
            simp [process_packfile_section, packfileEvents, hrest, hv, Except.map]
          · have hfm : (match b :: t with
                | 1 :: t => some (FetchEvent.wrote t)
                | 2 :: t => some (FetchEvent.info t)
                | 3 :: t => some (FetchEvent.err t)
                | _ => none) = none := by
              match b, hb1, hb2, hb3 with
              | 0, _, _, _ => rfl
              | 1, hb1, _, _ => exact absurd rfl hb1
              | 2, _, hb2, _ => exact absurd rfl hb2
              | 3, _, _, hb3 => exact absurd rfl hb3
              | b + 4, _, _, _ => rfl
            simp [process_packfile_section, packfileEvents, hb1, hb2, hb3, hrest, hfm]

/-- Witness for C4: one packet per band plus an unknown band.  The sink gets
exactly the band-1 tail. -/
theorem c4_packfile_section_witness :
    process_packfile_section [[1, 97, 98], [2, 112], [3, 101], [9, 99]]
      = .ok (packfileEvents [[1, 97, 98], [2, 112], [3, 101], [9, 99]])
    ∧ writtenBytes (packfileEvents [[1, 97, 98], [2, 112], [3, 101], [9, 99]])
      = concatBytes ([[1, 97, 98], [2, 112], [3, 101], [9, 99]].filterMap (fun p =>
          match p with
          | 1 :: t => some t
          | _ => none)) :=
  c4_packfile_section _ (by decide)

/-! ## The framed byte stream and section reader
(`BaseConnection._read_packet` / `_shift_packet` / `_at_eof` /
`_read_packets_until_flush`).  The underlying stream is modelled as a fully
buffered byte sequence with a read position (the state the unit tests
exercise: all bytes fed, then EOF); `shifted` is the push-back queue. -/

/-- The read side of a connection. -/
structure ReaderState where
  buf : List Nat
  pos : Nat
  shifted : List PacketLine
  deriving DecidableEq, Repr

/-- `BaseConnection._at_eof`: no pushed-back packet and the reader exhausted. -/
def at_eof (s : ReaderState) : Bool :=
  s.shifted.isEmpty && decide (s.buf.length ≤ s.pos)

/-- `StreamReader.readexactly(n)`: `n` bytes, or `IncompleteReadError`
carrying the bytes that were available (`e.partial`). -/
def readexactly (s : ReaderState) (n : Nat) : Except (List Nat) (List Nat × ReaderState) :=
  if s.buf.length - s.pos < n then .error ((s.buf.drop s.pos).take n)
  else .ok ((s.buf.drop s.pos).take n, { s with pos := s.pos + n })

/-- Errors `_read_packet` can raise. -/
inductive ReadErr where
  | incomplete (pb : List Nat)
  | badMarker
  deriving DecidableEq, Repr

/-- `BaseConnection._read_packet`: serve the push-back queue first, else read
a 4-byte header, dispatch on `PacketLineType.from_bytes`, and read the
payload for `DATA`. -/
def read_packet (s : ReaderState) : Except ReadErr (PacketLine × ReaderState) :=
  match s.shifted with
  | p :: rest => .ok (p, { s with shifted := rest })
  | [] =>
    match readexactly s 4 with
    | .error pb => .error (.incomplete pb)
    | .ok (hdr, s1) =>
      match parseHexDigits hdr with
      | none => .error .badMarker
      | some m =>
        if m ≥ 4 then
          match readexactly s1 (m - 4) with
          | .error pb => .error (.incomplete pb)
          | .ok (payload, s2) => .ok (⟨m - 4, payload, .DATA⟩, s2)
        else .ok (⟨0, [], PacketLineType.ofMarker m⟩, s1)

/-- `BaseConnection._shift_packet`: append to the push-back queue. -/
def shift_packet (s : ReaderState) (p : PacketLine) : ReaderState :=
  { s with shifted := s.shifted ++ [p] }

/-- Errors `_read_packets_until_flush` can raise: `eofMidPacket` is the
`"Unexpected EOF ..."` `ValueError` (non-empty `e.partial`), `eofBeforeFlush`
the `"Reached EOF before FLUSH packet"` one, `badMarker` the uncaught
`ValueError` from `int(data, 16)`. -/
inductive LoopErr where
  | eofMidPacket (pb : List Nat)
  | eofBeforeFlush
  | badMarker
  deriving DecidableEq, Repr

theorem read_packet_shifted {s : ReaderState} {q : PacketLine} {rest : List PacketLine}
    (h : s.shifted = q :: rest) :
    read_packet s = .ok (q, { s with shifted := rest }) := by
  unfold read_packet
  rw [h]

theorem read_packet_no_shift {s : ReaderState} (h : s.shifted = []) :
    read_packet s =
      (match readexactly s 4 with
      | .error pb => .error (.incomplete pb)
      | .ok (hdr, s1) =>
        match parseHexDigits hdr with
        | none => .error .badMarker
        | some m =>
          if m ≥ 4 then
            match readexactly s1 (m - 4) with
            | .error pb => .error (.incomplete pb)
            | .ok (payload, s2) => .ok (⟨m - 4, payload, .DATA⟩, s2)
          else .ok (⟨0, [], PacketLineType.ofMarker m⟩, s1)) := by
  unfold read_packet
  rw [h]

theorem readexactly_ok {s : ReaderState} {n : Nat} {bs : List Nat} {s2 : ReaderState}
    (h : readexactly s n = .ok (bs, s2)) :
    s2.buf = s.buf ∧ s2.shifted = s.shifted ∧ s2.pos = s.pos + n
    ∧ n ≤ s.buf.length - s.pos ∧ bs = (s.buf.drop s.pos).take n := by
  unfold readexactly at h
  by_cases hc : s.buf.length - s.pos < n
  · rw [if_pos hc] at h
    exact absurd h (by simp)
  · rw [if_neg hc] at h
    injection h with h1
    injection h1 with hbs hs2
    rw [← hs2]
    exact ⟨rfl, rfl, rfl, by omega, hbs.symm⟩

theorem read_packet_measure {s : ReaderState} {p : PacketLine} {s2 : ReaderState}
    (hne : at_eof s = false) (h : read_packet s = .ok (p, s2)) :
    s2.shifted.length + (s2.buf.length - s2.pos)
      < s.shifted.length + (s.buf.length - s.pos) := by
  cases hshift : s.shifted with
  | cons q rest =>
    rw [read_packet_shifted hshift] at h
    injection h with h1
    injection h1 with hp hs2
    rw [← hs2]
    show rest.length + (s.buf.length - s.pos) < (q :: rest).length + (s.buf.length - s.pos)
    simp only [List.length_cons]
    omega
  | nil =>
    have hpos : s.pos < s.buf.length := by
      unfold at_eof at hne
      rw [hshift] at hne
      simpa using hne
    rw [read_packet_no_shift hshift] at h
    split at h
    · exact absurd h (by simp)
    · rename_i hdr s1 hr1
      obtain ⟨hb1, hsh1, hp1, hn1, _⟩ := readexactly_ok hr1
      split at h
      · exact absurd h (by simp)
      · rename_i m hx
        split at h
        · split at h
          · exact absurd h (by simp)
          · rename_i payload s3 hr2
            obtain ⟨hb2, hsh2, hp2, hn2, _⟩ := readexactly_ok hr2
            injection h with h1
            injection h1 with hp hs2
            rw [← hs2]
            rw [hb2, hb1, hsh2, hsh1, hshift, hp2, hp1]
            simp only [hshift, List.length_nil]
            omega
        · injection h with h1
          injection h1 with hp hs2
          rw [← hs2]
          rw [hb1, hsh1, hshift, hp1]
          simp only [hshift, List.length_nil]
          omega

/-- `BaseConnection._read_packets_until_flush`: read packets while not at
EOF, stop silently on FLUSH, re-raise `IncompleteReadError` as the two
`ValueError`s.  Returns the yielded packets and the state after the call. -/
def read_until_flush (s : ReaderState) : Except LoopErr (List PacketLine × ReaderState) :=
  if hne : at_eof s = true then .ok ([], s)
  else
    match hrp : read_packet s with
    | .error (.incomplete pb) =>
      .error (if pb.isEmpty then .eofBeforeFlush else .eofMidPacket pb)
    | .error .badMarker => .error .badMarker
    | .ok (p, s2) =>
      if p.type = .FLUSH then .ok ([], s2)
      else
        match read_until_flush s2 with
        | .error e => .error e
        | .ok (ps, s3) => .ok (p :: ps, s3)
  termination_by s.shifted.length + (s.buf.length - s.pos)
  decreasing_by
    exact read_packet_measure (by simpa using hne) hrp

/-- The wire bytes of a packet: header then payload. -/
def encodePacket (p : PacketLine) : List Nat := p.marker_bytes ++ p.data

/-- The wire bytes of a packet sequence. -/
def encodesList : List PacketLine → List Nat
  | [] => []
  | p :: ps => encodePacket p ++ encodesList ps

/-- A well-formed in-memory packet: consistent `length` field, encodable
header (`DATA`), or a marker with empty payload. -/
def wfPacket (p : PacketLine) : Bool :=
  match p.type with
  | .DATA => decide (p.length = p.data.length) && decide (p.length + 4 < 65536)
  | _ => decide (p.length = 0) && decide (p.data = [])

theorem ofMarker_value (t : PacketLineType) (h : t ≠ .DATA) :
    PacketLineType.ofMarker t.value = t := by
  cases t <;> first
    | exact absurd rfl h
    | rfl

theorem value_lt (t : PacketLineType) : t.value < 4 := by
  cases t <;> simp [PacketLineType.value]

theorem marker_bytes_spec (p : PacketLine) (h : wfPacket p = true) :
    (PacketLine.marker_bytes p).length = 4
    ∧ parseHexDigits (PacketLine.marker_bytes p)
      = some (if p.type = .DATA then p.length + 4 else p.type.value) := by
  unfold PacketLine.marker_bytes
  by_cases ht : p.type = .DATA
  · rw [if_pos ht]
    unfold wfPacket at h
    rw [ht] at h
    simp only [Bool.and_eq_true, decide_eq_true_eq] at h
    exact ⟨(parse_format04x (by omega)).2, (parse_format04x (by omega)).1⟩
  · rw [if_neg ht]
    have hv : p.type.value < 65536 := lt_trans (value_lt _) (by norm_num)
    exact ⟨(parse_format04x hv).2, (parse_format04x hv).1⟩

theorem encodePacket_length (p : PacketLine) (h : wfPacket p = true) :
    (encodePacket p).length = 4 + p.data.length := by
  unfold encodePacket
  rw [List.length_append, (marker_bytes_spec p h).1]

theorem read_packet_encode (pre suffix : List Nat) (p : PacketLine) (hwf : wfPacket p = true) :
    read_packet ⟨pre ++ (encodePacket p ++ suffix), pre.length, []⟩
      = .ok (p, ⟨pre ++ (encodePacket p ++ suffix),
          pre.length + (encodePacket p).length, []⟩) := by
  obtain ⟨hm4, hparse⟩ := marker_bytes_spec p hwf
  have hel := encodePacket_length p hwf
  have hdrop : (pre ++ (encodePacket p ++ suffix)).drop pre.length
      = encodePacket p ++ suffix := List.drop_left _ _
  have hbuflen : (pre ++ (encodePacket p ++ suffix)).length
      = pre.length + ((encodePacket p).length + suffix.length) := by
    simp [List.length_append]
  have htake4 : ((pre ++ (encodePacket p ++ suffix)).drop pre.length).take 4
      = p.marker_bytes := by
    rw [hdrop]
    show ((p.marker_bytes ++ p.data) ++ suffix).take 4 = _
    rw [List.append_assoc, ← hm4, List.take_left]
  have hr1 : readexactly ⟨pre ++ (encodePacket p ++ suffix), pre.length, []⟩ 4
      = .ok (p.marker_bytes, ⟨pre ++ (encodePacket p ++ suffix), pre.length + 4, []⟩) := by
    unfold readexactly
    rw [if_neg (by
      simp only [hbuflen]
      omega)]
    rw [htake4]
  have hdrop2 : (pre ++ (encodePacket p ++ suffix)).drop (pre.length + 4)
      = p.data ++ suffix := by
    have hre : pre ++ (encodePacket p ++ suffix)
        = (pre ++ p.marker_bytes) ++ (p.data ++ suffix) := by
      show pre ++ ((p.marker_bytes ++ p.data) ++ suffix) = _
      simp [List.append_assoc]
    rw [hre]
    have hl2 : (pre ++ p.marker_bytes).length = pre.length + 4 := by
      rw [List.length_append, hm4]
    rw [← hl2, List.drop_left]
  rw [read_packet_no_shift rfl]
  simp only [hr1, hparse]
  by_cases ht : p.type = .DATA
  · simp only [ht, if_true]
    unfold wfPacket at hwf
    rw [ht] at hwf
    simp only [Bool.and_eq_true, decide_eq_true_eq] at hwf
    have hm : p.length + 4 ≥ 4 := by omega
    simp only [hm, if_true]
    have hr2 : readexactly ⟨pre ++ (encodePacket p ++ suffix), pre.length + 4, []⟩
        (p.length + 4 - 4)
        = .ok (p.data, ⟨pre ++ (encodePacket p ++ suffix),
            pre.length + 4 + (p.length + 4 - 4), []⟩) := by
      unfold readexactly
      rw [if_neg (by
        simp only [hbuflen, hel]
        omega)]
      have : ((pre ++ (encodePacket p ++ suffix)).drop (pre.length + 4)).take (p.length + 4 - 4)
          = p.data := by
        rw [hdrop2]
        have h4 : p.length + 4 - 4 = p.data.length := by omega
        rw [h4, List.take_left]
      rw [this]
    simp only [hr2]
    have hplen : p.length + 4 - 4 = p.length := by omega
    have h2 : pre.length + 4 + p.length = pre.length + (encodePacket p).length := by
      rw [hel]
      omega
    rw [hplen, h2, ← ht]
  · simp only [ht, if_false]
    have hv := value_lt p.type
    rw [if_neg (by omega)]
    unfold wfPacket at hwf
    have hnd : (match p.type with
        | PacketLineType.DATA => decide (p.length = p.data.length) && decide (p.length + 4 < 65536)
        | _ => decide (p.length = 0) && decide (p.data = [])) = true := hwf
    have hfields : p.length = 0 ∧ p.data = [] := by
      cases hpt : p.type <;> rw [hpt] at hnd <;> first
        | exact absurd hpt ht
        | simpa using hnd
    have h2 : pre.length + (encodePacket p).length = pre.length + 4 := by
      rw [hel, hfields.2]
      rfl
    rw [h2, ofMarker_value _ ht, ← hfields.1, ← hfields.2]

theorem read_until_flush_at_eof (s : ReaderState) (h : at_eof s = true) :
    read_until_flush s = .ok ([], s) := by
  conv_lhs => rw [read_until_flush.eq_def]
  simp [h]

theorem read_until_flush_step (ps : List PacketLine) :
    ∀ pre suffix : List Nat, (∀ p ∈ ps, wfPacket p = true ∧ p.type ≠ .FLUSH) →
    read_until_flush ⟨pre ++ (encodesList ps ++ suffix), pre.length, []⟩
      = match read_until_flush ⟨pre ++ (encodesList ps ++ suffix),
            pre.length + (encodesList ps).length, []⟩ with
        | .error e => .error e
        | .ok (qs, s3) => .ok (ps ++ qs, s3) := by
  induction ps with
  | nil =>
    intro pre suffix hwf
    simp only [encodesList, List.nil_append, List.length_nil, Nat.add_zero]
    cases read_until_flush ⟨pre ++ suffix, pre.length, []⟩ <;> simp
  | cons p rest ih =>
    intro pre suffix hwf
    obtain ⟨hwfp, hnf⟩ := hwf p (List.mem_cons_self _ _)
    have hwfr : ∀ q ∈ rest, wfPacket q = true ∧ q.type ≠ .FLUSH :=
      fun q hq => hwf q (List.mem_cons_of_mem _ hq)
    have hassoc1 : encodesList (p :: rest) ++ suffix
        = encodePacket p ++ (encodesList rest ++ suffix) := by
      show (encodePacket p ++ encodesList rest) ++ suffix = _
      rw [List.append_assoc]
    have hlen1 : (encodesList (p :: rest)).length
        = (encodePacket p).length + (encodesList rest).length := by
      show (encodePacket p ++ encodesList rest).length = _
      rw [List.length_append]
    rw [hassoc1, hlen1]
    have hne : at_eof ⟨pre ++ (encodePacket p ++ (encodesList rest ++ suffix)),
        pre.length, []⟩ = false := by
      have hl := encodePacket_length p hwfp
      show (([] : List PacketLine).isEmpty
          && decide ((pre ++ (encodePacket p ++ (encodesList rest ++ suffix))).length
            ≤ pre.length)) = false
      have hlen2 : (pre ++ (encodePacket p ++ (encodesList rest ++ suffix))).length
          = pre.length + ((encodePacket p).length
            + ((encodesList rest).length + suffix.length)) := by
        simp [List.length_append]
      rw [hlen2, hl]
      simp only [List.isEmpty_nil, Bool.true_and, decide_eq_false_iff_not]
      omega
    conv_lhs => rw [read_until_flush.eq_def]
    rw [dif_neg (by simp [hne])]
    split
    · rename_i pb heq
      rw [read_packet_encode pre (encodesList rest ++ suffix) p hwfp] at heq
      exact absurd heq (by simp)
    · rename_i heq
      rw [read_packet_encode pre (encodesList rest ++ suffix) p hwfp] at heq
      exact absurd heq (by simp)
    · rename_i q s2 heq
      rw [read_packet_encode pre (encodesList rest ++ suffix) p hwfp] at heq
      injection heq with h1
      injection h1 with hq hs2
      subst hq
      subst hs2
      rw [if_neg hnf]
      have hassoc2 : pre ++ (encodePacket p ++ (encodesList rest ++ suffix))
          = (pre ++ encodePacket p) ++ (encodesList rest ++ suffix) :=
        (List.append_assoc _ _ _).symm
      have hplen : pre.length + (encodePacket p).length = (pre ++ encodePacket p).length :=
        (List.length_append _ _).symm
      have harith : pre.length + ((encodePacket p).length + (encodesList rest).length)
          = (pre ++ encodePacket p).length + (encodesList rest).length := by
        rw [← hplen]
        omega
      rw [hassoc2, hplen, harith, ih (pre ++ encodePacket p) suffix hwfr]
      cases read_until_flush ⟨(pre ++ encodePacket p) ++ (encodesList rest ++ suffix),
          (pre ++ encodePacket p).length + (encodesList rest).length, []⟩ with
      | error e => simp
      | ok v =>
        obtain ⟨qs, s3⟩ := v
        simp

theorem read_until_flush_partial (s : ReaderState) (hsh : s.shifted = [])
    (h1 : s.pos < s.buf.length) (h2 : s.buf.length < s.pos + 4) :
    read_until_flush s = .error (.eofMidPacket (s.buf.drop s.pos)) := by
  have hne : at_eof s = false := by
    unfold at_eof
    rw [hsh]
    simp
    omega
  have hrp : read_packet s = .error (.incomplete (s.buf.drop s.pos)) := by
    rw [read_packet_no_shift hsh]
    have hre : readexactly s 4 = .error ((s.buf.drop s.pos).take 4) := by
      unfold readexactly
      rw [if_pos (by omega)]
    have htk : (s.buf.drop s.pos).take 4 = s.buf.drop s.pos := by
      apply List.take_of_length_le
      rw [List.length_drop]
      omega
    rw [hre, htk]
  conv_lhs => rw [read_until_flush.eq_def]
  rw [dif_neg (by simp [hne])]
  split
  · rename_i pb heq
    rw [hrp] at heq
    injection heq with h3
    injection h3 with hpb
    subst hpb
    have hnn : s.buf.drop s.pos ≠ [] := by
      apply List.ne_nil_of_length_pos
      rw [List.length_drop]
      omega
    simp [hnn]
  · rename_i heq
    rw [hrp] at heq
    exact absurd heq (by simp)
  · rename_i q s2 heq
    rw [hrp] at heq
    exact absurd heq (by simp)

theorem read_until_flush_flush_stop (ps : List PacketLine) (pre suffix : List Nat)
    (hwf : ∀ p ∈ ps, wfPacket p = true ∧ p.type ≠ .FLUSH) :
    read_until_flush ⟨pre ++ (encodesList ps ++ ([48, 48, 48, 48] ++ suffix)),
        pre.length, []⟩
      = .ok (ps, ⟨pre ++ (encodesList ps ++ ([48, 48, 48, 48] ++ suffix)),
          pre.length + (encodesList ps).length + 4, []⟩) := by
  rw [read_until_flush_step ps pre ([48, 48, 48, 48] ++ suffix) hwf]
  have hflush : ([48, 48, 48, 48] : List Nat) = encodePacket ⟨0, [], .FLUSH⟩ := rfl
  have hassoc : pre ++ (encodesList ps ++ ([48, 48, 48, 48] ++ suffix))
      = (pre ++ encodesList ps) ++ (encodePacket ⟨0, [], .FLUSH⟩ ++ suffix) := by
    rw [hflush]
    exact (List.append_assoc _ _ _).symm
  have hplen2 : pre.length + (encodesList ps).length = (pre ++ encodesList ps).length :=
    (List.length_append _ _).symm
  rw [hassoc, hplen2]
  have hwfl : wfPacket ⟨0, [], .FLUSH⟩ = true := by decide
  have hinner : read_until_flush ⟨(pre ++ encodesList ps)
        ++ (encodePacket ⟨0, [], .FLUSH⟩ ++ suffix), (pre ++ encodesList ps).length, []⟩
      = .ok ([], ⟨(pre ++ encodesList ps) ++ (encodePacket ⟨0, [], .FLUSH⟩ ++ suffix),
          (pre ++ encodesList ps).length + (encodePacket ⟨0, [], .FLUSH⟩).length, []⟩) := by
    conv_lhs => rw [read_until_flush.eq_def]
    have hne : at_eof ⟨(pre ++ encodesList ps) ++ (encodePacket ⟨0, [], .FLUSH⟩ ++ suffix),
        (pre ++ encodesList ps).length, []⟩ = false := by
      show (([] : List PacketLine).isEmpty
          && decide (((pre ++ encodesList ps)
            ++ (encodePacket ⟨0, [], .FLUSH⟩ ++ suffix)).length
            ≤ (pre ++ encodesList ps).length)) = false
      have hlen3 : ((pre ++ encodesList ps)
          ++ (encodePacket ⟨0, [], .FLUSH⟩ ++ suffix)).length
          = (pre ++ encodesList ps).length
            + ((encodePacket ⟨0, [], .FLUSH⟩).length + suffix.length) := by
        simp [List.length_append]
        omega
      rw [hlen3, encodePacket_length _ hwfl]
      simp only [List.isEmpty_nil, Bool.true_and, decide_eq_false_iff_not]
      omega
    rw [dif_neg (by rw [hne]; simp)]
    split
    · rename_i pb heq
      rw [read_packet_encode (pre ++ encodesList ps) suffix _ hwfl] at heq
      exact absurd heq (by simp)
    · rename_i heq
      rw [read_packet_encode (pre ++ encodesList ps) suffix _ hwfl] at heq
      exact absurd heq (by simp)
    · rename_i q s2 heq
      rw [read_packet_encode (pre ++ encodesList ps) suffix _ hwfl] at heq
      injection heq with h3
      injection h3 with hq hs2
      subst hq
      subst hs2
      rw [if_pos rfl]
  rw [hinner]
  simp [show (encodePacket ⟨0, [], PacketLineType.FLUSH⟩).length = 4 from rfl]

theorem read_until_flush_exact (ps : List PacketLine)
    (hwf : ∀ p ∈ ps, wfPacket p = true ∧ p.type ≠ .FLUSH) :
    read_until_flush ⟨encodesList ps, 0, []⟩
      = .ok (ps, ⟨encodesList ps, (encodesList ps).length, []⟩) := by
  have hstep := read_until_flush_step ps [] [] hwf
  simp only [List.nil_append, List.append_nil, List.length_nil, Nat.zero_add] at hstep
  rw [hstep]
  rw [read_until_flush_at_eof _ (by
    unfold at_eof
    simp)]
  simp

/-- C9 counterexample: a stream holding exactly one DATA packet (`b"0005a"`)
and no FLUSH is read to completion *without error* even though a packet was
yielded and no FLUSH was seen, and the stream was not at EOF at the start of
the call — refuting both the claimed iff and the claimed
never-terminates-without-error-after-yielding property. -/
theorem c9_counterexample_silent_eof_mid_stream :
    read_until_flush ⟨[48, 48, 48, 53, 97], 0, []⟩
      = .ok ([⟨1, [97], .DATA⟩], ⟨[48, 48, 48, 53, 97], 5, []⟩)
    ∧ at_eof ⟨[48, 48, 48, 53, 97], 0, []⟩ = false := by
  constructor
  · have hwf : ∀ p ∈ [(⟨1, [97], .DATA⟩ : PacketLine)],
        wfPacket p = true ∧ p.type ≠ PacketLineType.FLUSH := by decide
    have h := read_until_flush_exact [⟨1, [97], .DATA⟩] hwf
    have he : encodesList [(⟨1, [97], .DATA⟩ : PacketLine)] = [48, 48, 48, 53, 97] := by
      show encodePacket ⟨1, [97], .DATA⟩ ++ [] = _
      have hf : format04x 5 = [48, 48, 48, 53] := by
        rw [format04x_eq (by norm_num)]
        norm_num [hexDigitByte]
      show (PacketLine.marker_bytes ⟨1, [97], .DATA⟩ ++ [97]) ++ [] = _
      have hm : PacketLine.marker_bytes ⟨1, [97], .DATA⟩ = format04x 5 := rfl
      rw [hm, hf]
      rfl
    rw [he] at h
    exact h
  · rfl

/-- C9 (amended): the until-flush reader (i) returns empty without error when
the connection is at EOF at the start of the call; (ii) more generally
returns *without error* whenever the buffered stream ends cleanly at a packet
boundary, even after yielding packets with no FLUSH read — not only when
already at EOF at the start; (iii) fails when EOF truncates a packet (here: a
partial header), with the partial bytes reported; and (iv) stops on FLUSH,
leaving the rest of the stream unread. -/
theorem c9_read_until_flush_amended :
    (∀ s : ReaderState, at_eof s = true → read_until_flush s = .ok ([], s))
    ∧ (∀ ps : List PacketLine, (∀ p ∈ ps, wfPacket p = true ∧ p.type ≠ .FLUSH) →
        read_until_flush ⟨encodesList ps, 0, []⟩
          = .ok (ps, ⟨encodesList ps, (encodesList ps).length, []⟩))
    ∧ (∀ s : ReaderState, s.shifted = [] → s.pos < s.buf.length →
        s.buf.length < s.pos + 4 →
        read_until_flush s = .error (.eofMidPacket (s.buf.drop s.pos)))
    ∧ (∀ (ps : List PacketLine) (suffix : List Nat),
        (∀ p ∈ ps, wfPacket p = true ∧ p.type ≠ .FLUSH) →
        read_until_flush ⟨encodesList ps ++ ([48, 48, 48, 48] ++ suffix), 0, []⟩
          = .ok (ps, ⟨encodesList ps ++ ([48, 48, 48, 48] ++ suffix),
              (encodesList ps).length + 4, []⟩)) := by
  refine ⟨read_until_flush_at_eof, read_until_flush_exact, read_until_flush_partial, ?_⟩
  intro ps suffix hwf
  have h := read_until_flush_flush_stop ps [] suffix hwf
  simpa using h

/-- Witness for C9 (amended): an empty stream, a one-marker stream without
FLUSH, and a one-byte (truncated-header) stream. -/
theorem c9_read_until_flush_amended_witness :
    read_until_flush ⟨[], 0, []⟩ = .ok ([], ⟨[], 0, []⟩)
    ∧ read_until_flush ⟨encodesList [⟨0, [], .DELIMITER⟩], 0, []⟩
      = .ok ([⟨0, [], .DELIMITER⟩], ⟨encodesList [⟨0, [], .DELIMITER⟩],
          (encodesList [(⟨0, [], .DELIMITER⟩ : PacketLine)]).length, []⟩)
    ∧ read_until_flush ⟨[48], 0, []⟩ = .error (.eofMidPacket [48]) := by
  refine ⟨c9_read_until_flush_amended.1 _ (by decide),
    c9_read_until_flush_amended.2.1 _ (by decide), ?_⟩
  have h := c9_read_until_flush_amended.2.2.1 ⟨[48], 0, []⟩ rfl (by decide) (by decide)
  simpa using h

/-- C10: pushing a packet back and reading returns it (identity when the
queue was empty), the queue is FIFO and served ahead of stream data (the
buffer and position are untouched), and a pending pushed-back packet means
the connection does not report EOF. -/
theorem c10_shift_packet_read_back (s : ReaderState) (p : PacketLine) :
    read_packet (shift_packet { s with shifted := [] } p)
      = .ok (p, { s with shifted := [] })
    ∧ read_packet (shift_packet s p)
      = .ok ((s.shifted ++ [p]).headD p, { s with shifted := (s.shifted ++ [p]).tail })
    ∧ at_eof (shift_packet s p) = false
    ∧ (shift_packet s p).buf = s.buf
    ∧ (shift_packet s p).pos = s.pos := by
  refine ⟨?_, ?_, ?_, rfl, rfl⟩
  · rw [read_packet_shifted
      (show (shift_packet { s with shifted := [] } p).shifted = p :: [] from rfl)]
    rfl
  · cases hs : s.shifted with
    | nil =>
      rw [read_packet_shifted
        (show (shift_packet s p).shifted = p :: []
          by simp [shift_packet, hs])]
      simp [shift_packet, hs]
    | cons q rest =>
      rw [read_packet_shifted
        (show (shift_packet s p).shifted = q :: (rest ++ [p])
          by simp [shift_packet, hs])]
      simp [shift_packet, hs]
  · simp [at_eof, shift_packet]

/-! ## Push failure semantics (`PushConnection.push_changes`,
`HTTPSmartPushConnection._send_commands`) -/

/-- Observable effects of the report-status loop: progress lines logged at
info, band-1 report sub-packets parsed and logged. -/
inductive ReportEvent where
  | progress (bs : List Nat)
  | report (bs : List Nat)
  deriving DecidableEq, Repr

/-- The report-status loop of `push_changes` over the section's DATA
payloads: band 2 is logged, band 1 is parsed as a nested packet line and
logged; every other band byte — including the band-3 error lines — is
ignored.  `packet.data[0]` of an empty payload raises `IndexError`; a
malformed nested packet raises `ValueError` from `from_buffer`. -/
def process_report_status : List (List Nat) → Except String (List ReportEvent)
  | [] => .ok []
  | [] :: _ => .error "IndexError"
  | (b :: tail) :: rest =>
    if b = 2 then (process_report_status rest).map (fun evs => .progress (b :: tail) :: evs)
    else if b = 1 then
      match PacketLine.from_buffer tail with
      | .error e => .error e
      | .ok pl => (process_report_status rest).map (fun evs => .report pl.data :: evs)
    else process_report_status rest

/-- `HTTPSmartPushConnection._send_commands` response handling: a non-200
status raises `ConnectionException`. -/
def check_push_response_status (status : Nat) : Except String Unit :=
  if status ≠ 200 then .error "Request failed" else .ok ()

/-- C6 counterexample: a band-3 report-status line is not a failure — the
loop has no branch for band 3, so the packet produces neither an error nor
even a log event. -/
theorem c6_counterexample_band3_ignored :
    process_report_status [[3, 101, 114, 114]] = .ok [] := rfl

/-- C6 (amended): a non-200 HTTP status on a push POST is a fatal push
failure, and an EOF that truncates a packet of the response is a fatal
failure of the report-status read; but a band-3 report-status line is
silently ignored by `push_changes` (no error, no event). -/
theorem c6_push_failures_amended (status : Nat) (hs : status ≠ 200) :
    check_push_response_status status = .error "Request failed"
    ∧ (∀ (msg : List Nat) (rest : List (List Nat)),
        process_report_status ((3 :: msg) :: rest) = process_report_status rest)
    ∧ (∀ s : ReaderState, s.shifted = [] → s.pos < s.buf.length →
        s.buf.length < s.pos + 4 →
        read_until_flush s = .error (.eofMidPacket (s.buf.drop s.pos))) := by
  refine ⟨by simp [check_push_response_status, hs], ?_, read_until_flush_partial⟩
  intro msg rest
  simp [process_report_status]

/-- Witness for C6 (amended) at status 404, a band-3 line, and a 2-byte
stream. -/
theorem c6_push_failures_amended_witness :
    check_push_response_status 404 = .error "Request failed"
    ∧ process_report_status [3 :: [101, 102]] = process_report_status []
    ∧ read_until_flush ⟨[48, 48], 0, []⟩ = .error (.eofMidPacket [48, 48]) := by
  refine ⟨(c6_push_failures_amended 404 (by decide)).1,
    (c6_push_failures_amended 404 (by decide)).2.1 [101, 102] [], ?_⟩
  have h := (c6_push_failures_amended 404 (by decide)).2.2 ⟨[48, 48], 0, []⟩ rfl
    (by decide) (by decide)
  simpa using h

end Kalandra
